import Mathlib

set_option maxHeartbeats 1000000

namespace TestPprof

/-! Shallow embedding of narqo/test-pprof: the ingestion pipeline of
src/main.go against the schema of src/pprof_data.sql.

Machine integers (Go int64, SQL INTEGER) are modelled as Lean Int: the
program only copies and compares them, it performs no arithmetic, so
overflow cannot occur.  Timestamps are nanoseconds since the Unix epoch
(an Int); the zero value of Go's time.Time is the constant goZeroTimeNanos.
SQL tables are lists of rows in their insertion order. -/

/-- One profile.Line entry of the pprof library together with the fields of
its profile.Function that main.go reads: ln.Function.Name,
ln.Function.Filename and ln.Line (main.go lines 196-198). -/
structure Line where
  FuncName : String
  FuncFilename : String
  Line : Int
deriving DecidableEq

/-- profile.Location: main.go only iterates loc.Line (line 191). -/
structure Location where
  Line : List Line
deriving DecidableEq

/-- profile.Sample: sample.Location (line 190) and sample.Value (lines 199-200). -/
structure Sample where
  Location : List Location
  Value : List Int
deriving DecidableEq

/-- profile.Profile: prof.Sample (line 189) and prof.TimeNanos (line 247). -/
structure PProfile where
  Sample : List Sample
  TimeNanos : Int
deriving DecidableEq

deriving instance DecidableEq for Except

/-- Nanoseconds since the Unix epoch of the zero time.Time value
(0001-01-01T00:00:00 UTC), i.e. -62135596800 seconds. -/
def goZeroTimeNanos : Int := -62135596800000000000

/-- The Profile struct of main.go (lines 97-106), without the embedded parsed
pprof object, which the embedding passes around separately. -/
structure Profile where
  BuildID : String
  Token : String
  Service : String
  CreatedAt : Int
  ReceivedAt : Int
  Labels : List (String × String)
deriving DecidableEq

/-- The layout string time.RFC3339 that createProfile hands to time.Parse
(main.go line 260). -/
def rfc3339Layout : String := "2006-01-02T15:04:05Z07:00"

/-- The only error createProfile itself can produce (main.go lines 259-263):
the failure of time.Parse on the received_at value.  Its *time.ParseError
records the layout and the offending value (not the metadata key). -/
inductive MetaError where
  | timeParseError (layout value : String)
deriving DecidableEq

/-- One iteration of the metadata switch (main.go lines 251-271).  timeParse
models the external stdlib call time.Parse(time.RFC3339, v) at its
interface: some t when v parses as RFC3339 (t the parsed instant), none
when it does not. -/
def applyMetaKV (timeParse : String → Option Int) (prof : Profile) (k v : String) :
    Except MetaError Profile :=
  if k = "build_id" then .ok { prof with BuildID := v }
  else if k = "token" then .ok { prof with Token := v }
  else if k = "service" then .ok { prof with Service := v }
  else if k = "received_at" then
    match timeParse v with
    | some tm => .ok { prof with ReceivedAt := tm }
    | none => .error (.timeParseError rfc3339Layout v)
  else .ok { prof with Labels := prof.Labels ++ [(k, v)] }

/-- createProfile (main.go lines 241-274) once the file has been decoded into
p.  CreatedAt is time.Unix(0, TimeNanos) when TimeNanos is nonzero, else the
zero time.Time value (line 247-249).  The metadata is a key/value list whose
keys are distinct (it is a Go map); Go map iteration order is unspecified and
the list order stands in for it. -/
def createProfile (timeParse : String → Option Int) (meta : List (String × String))
    (p : PProfile) : Except MetaError Profile :=
  let init : Profile :=
    { BuildID := "", Token := "", Service := "",
      CreatedAt := if p.TimeNanos ≠ 0 then p.TimeNanos else goZeroTimeNanos,
      ReceivedAt := goZeroTimeNanos, Labels := [] }
  meta.foldlM (fun prof kv => applyMetaKV timeParse prof kv.1 kv.2) init

/-- A row of the services table (src/pprof_data.sql lines 33-40); labels is
an hstore, i.e. keys mapped to nullable strings. -/
structure ServiceRow where
  build_id : String
  token : String
  name : String
  labels : List (String × Option String)
deriving DecidableEq

/-- hstoreFromLabels (main.go lines 276-284): every label value becomes a
valid (non-null) hstore entry. -/
def hstoreFromLabels (labels : List (String × String)) : List (String × Option String) :=
  labels.map (fun kv => (kv.1, some kv.2))

/-- sqlInsertServices (main.go line 134): INSERT INTO services ... ON
CONFLICT (build_id, token) DO NOTHING. -/
def insertService (b t n : String) (ls : List (String × Option String))
    (rows : List ServiceRow) : List ServiceRow :=
  if rows.any (fun r => r.build_id == b && r.token == t) then rows
  else rows ++ [{ build_id := b, token := t, name := n, labels := ls }]

/-- A row of profile_pprof_locations (src/pprof_data.sql lines 20-27). -/
structure LocationRow where
  location_id : Nat
  func : String
  file_name : String
  line : Int
deriving DecidableEq

/-- The locations table together with the state of its SERIAL sequence. -/
structure LocTable where
  rows : List LocationRow
  nextId : Nat
deriving DecidableEq

def tripleOfLoc (l : LocationRow) : String × String × Int := (l.func, l.file_name, l.line)

/-- A row of the temp table profile_pprof_samples_tmp (main.go line 152). -/
structure StagedRow where
  sample_id : Nat
  location_id : Nat
  func : String
  file_name : String
  line : Int
  value_cpu : Int
  value_nanos : Int
deriving DecidableEq

def tripleOfRow (r : StagedRow) : String × String × Int := (r.func, r.file_name, r.line)

/-- The join condition of sqlInsertSamples (main.go line 147): tmp.func =
l.func AND tmp.file_name = l.file_name AND tmp.line = l.line. -/
def locMatches (r : StagedRow) (l : LocationRow) : Bool :=
  r.func == l.func && r.file_name == l.file_name && r.line == l.line

/-- One temp-table row proposed to sqlInsertLocations (main.go lines
136-139): inserted when its (func, file_name, line) is absent, skipped on
conflict.  The SERIAL sequence advances for every proposed row, since
nextval is evaluated before the conflict check. -/
def insertLoc1 (t : LocTable) (r : StagedRow) : LocTable :=
  if t.rows.any (fun l => locMatches r l) then { t with nextId := t.nextId + 1 }
  else { rows := t.rows ++
           [{ location_id := t.nextId, func := r.func, file_name := r.file_name, line := r.line }],
         nextId := t.nextId + 1 }

/-- sqlInsertLocations (main.go lines 136-139): INSERT INTO
profile_pprof_locations SELECT func, file_name, line FROM
profile_pprof_samples_tmp ON CONFLICT DO NOTHING, the temp-table rows
proposed in their insertion order. -/
def insertLocations (tmp : List StagedRow) (t : LocTable) : LocTable :=
  tmp.foldl insertLoc1 t

/-- The arguments of one queued copyStmt.ExecContext call of the staging
loop (main.go lines 192-201): the sample ordinal, the location ordinal
inside the sample, the sample's whole Value vector (only indexed when the
call is evaluated) and the line entry. -/
structure PendingExec where
  sampleID : Nat
  locID : Nat
  values : List Int
  line : Line
deriving DecidableEq

def pendingOfLocs (sampleID : Nat) (values : List Int) :
    Nat → List Location → List PendingExec
  | _, [] => []
  | locID, loc :: locs =>
      loc.Line.map (fun ln =>
          { sampleID := sampleID, locID := locID, values := values, line := ln })
        ++ pendingOfLocs sampleID values (locID + 1) locs

def pendingOfSamples : Nat → List Sample → List PendingExec
  | _, [] => []
  | sampleID, s :: ss =>
      pendingOfLocs sampleID s.Value 0 s.Location ++ pendingOfSamples (sampleID + 1) ss

/-- The staging loop's Exec calls in loop order: for sampleID, sample :=
range prof.prof.Sample; for locID, loc := range sample.Location; for _, ln
:= range loc.Line (main.go lines 189-207). -/
def pendingExecs (p : PProfile) : List PendingExec := pendingOfSamples 0 p.Sample

/-- Evaluating the arguments of one Exec call: sample.Value[0] and
sample.Value[1] (main.go lines 199-200) panic with index-out-of-range when
the Value vector has fewer than two entries; entries beyond the second are
silently ignored. -/
def stageRow (pe : PendingExec) : Option StagedRow :=
  match pe.values with
  | v0 :: v1 :: _ =>
      some { sample_id := pe.sampleID, location_id := pe.locID,
             func := pe.line.FuncName, file_name := pe.line.FuncFilename,
             line := pe.line.Line, value_cpu := v0, value_nanos := v1 }
  | _ => none

/-- Stage a list of queued Exec calls in order, stopping at the first
panicking argument evaluation, like the loop's early return. -/
def stageList : List PendingExec → Option (List StagedRow)
  | [] => some []
  | pe :: rest =>
      match stageRow pe with
      | none => none
      | some row =>
          match stageList rest with
          | none => none
          | some rows => some (row :: rows)

/-- The rows the staging loop would stage for a whole profile; none when
some Exec call's argument evaluation panics. -/
def stageProfile (p : PProfile) : Option (List StagedRow) :=
  stageList (pendingExecs p)

/-- The staged rows, written directly: per sample (in order, ordinal =
position), per location (in order, ordinal = position within the sample),
one row per line entry, every row of a sample replicating the sample's
first two Value entries.  A sample whose Value vector is too short to stage
contributes nothing (in the staging loop it would panic instead, unless it
has no lines at all). -/
def stagedOfLocs (sampleID : Nat) (v0 v1 : Int) : Nat → List Location → List StagedRow
  | _, [] => []
  | locID, loc :: locs =>
      loc.Line.map (fun ln =>
          { sample_id := sampleID, location_id := locID, func := ln.FuncName,
            file_name := ln.FuncFilename, line := ln.Line,
            value_cpu := v0, value_nanos := v1 })
        ++ stagedOfLocs sampleID v0 v1 (locID + 1) locs

/-- The staged rows of one sample at ordinal i: nothing when its Value
vector is too short to evaluate (that case panics in the loop unless the
sample has no lines). -/
def blockOf (i : Nat) (s : Sample) : List StagedRow :=
  match s.Value with
  | v0 :: v1 :: _ => stagedOfLocs i v0 v1 0 s.Location
  | _ => []

def stagedOfSamples : Nat → List Sample → List StagedRow
  | _, [] => []
  | sampleID, s :: ss => blockOf sampleID s ++ stagedOfSamples (sampleID + 1) ss

/-- GROUP BY key of sqlInsertSamples (main.go line 148):
(sample_id, value_cpu, value_nanos). -/
abbrev SKey := Nat × Int × Int

def sampleKey (r : StagedRow) : SKey := (r.sample_id, r.value_cpu, r.value_nanos)

/-- First occurrences of a list, keeping encounter order and skipping keys
already seen: the deterministic reading of the GROUP BY output order. -/
def dedupAux {K : Type} [DecidableEq K] : List K → List K → List K
  | [], _ => []
  | x :: xs, seen => if x ∈ seen then dedupAux xs seen else x :: dedupAux xs (x :: seen)

def dedupFirst {K : Type} [DecidableEq K] (l : List K) : List K := dedupAux l []

/-- The INNER JOIN of sqlInsertSamples (main.go lines 146-147): each
temp-table row paired with every locations row matching on (func,
file_name, line), enumerated in temp-table order. -/
def joinRows (loc : LocTable) (tmp : List StagedRow) : List (StagedRow × LocationRow) :=
  tmp.flatMap (fun r => (loc.rows.filter (fun l => locMatches r l)).map (fun l => (r, l)))

/-- A row of profile_pprof_samples_cpu (src/pprof_data.sql lines 6-13). -/
structure SampleRow where
  build_id : String
  token : String
  locations : List Nat
  created_at : Int
  value_cpu : Int
  value_nanos : Int
deriving DecidableEq

/-- sqlInsertSamples (main.go lines 140-149): group the joined rows by
(sample_id, value_cpu, value_nanos), aggregate the matched location_ids
with array_agg, and insert one fact row per group, each also carrying the
$1/$2/$3 build_id, token and created_at.  SQL fixes neither the group
output order nor the array_agg order; the embedding takes the
deterministic reading in which both follow temp-table (staging) order. -/
def insertSamples (b t : String) (created : Int) (loc : LocTable)
    (tmp : List StagedRow) (samples : List SampleRow) : List SampleRow :=
  let j := joinRows loc tmp
  let keys := dedupFirst (j.map (fun rl => sampleKey rl.1))
  samples ++ keys.map (fun k =>
    { build_id := b, token := t,
      locations := (j.filter (fun rl => sampleKey rl.1 = k)).map (fun rl => rl.2.location_id),
      created_at := created, value_cpu := k.2.1, value_nanos := k.2.2 })

/-- The caller-visible database: the three persistent tables of
src/pprof_data.sql. -/
structure DB where
  services : List ServiceRow
  locations : LocTable
  samples : List SampleRow
deriving DecidableEq

def emptyDB : DB := { services := [], locations := { rows := [], nextId := 1 }, samples := [] }

/-- One open transaction: a working view of the database plus the
transaction-scoped temp table (ON COMMIT DELETE ROWS, main.go line 152). -/
structure Tx where
  view : DB
  tmp : List StagedRow
deriving DecidableEq

/-- Errors surfaced by CreateProfile.  wrapped models errors.Wrap/Wrapf with
the message attached in the code; externalError stands for an error the
database driver returned; timeParse carries the layout and value recorded
by the *time.ParseError of time.Parse. -/
inductive IngestError where
  | externalError
  | timeParse (layout value : String)
  | wrapped (msg : String) (cause : IngestError)
deriving DecidableEq

/-- Go %q quoting of a plain string (none of the inputs used need escapes). -/
def goQuote (s : String) : String := "\"" ++ s ++ "\""

/-- errors.Wrapf(err, "could not parse profile %q", filePath) (main.go line 158). -/
def wrapProfileErr (filePath : String) (e : MetaError) : IngestError :=
  match e with
  | .timeParseError layout value =>
      .wrapped ("could not parse profile " ++ goQuote filePath) (.timeParse layout value)

/-- The message strings along an error chain, outermost first; the timeParse
leaf renders the way *time.ParseError.Error does. -/
def errStrings : IngestError → List String
  | .externalError => []
  | .timeParse layout value => ["parsing time " ++ goQuote value ++ " as " ++ goQuote layout]
  | .wrapped msg cause => msg :: errStrings cause

/-- Does the first character list start with the second? -/
def hasLead : List Char → List Char → Bool
  | _, [] => true
  | [], _ :: _ => false
  | c :: cs, d :: ds => c == d && hasLead cs ds

/-- Does the first character list contain the second as a contiguous run? -/
def hasSub : List Char → List Char → Bool
  | [], needle => needle.isEmpty
  | c :: cs, needle => hasLead (c :: cs) needle || hasSub cs needle

/-- Plain substring test: does hay mention needle? -/
def containsStr (hay needle : String) : Bool := hasSub hay.toList needle.toList

/-- Whether any message in the error chain mentions the string k. -/
def errMentions (e : IngestError) (k : String) : Bool :=
  (errStrings e).any (fun s => containsStr s k)

/-- The failure points of CreateProfile (main.go lines 155-239): every
database interaction may be failed by the environment (connection loss,
constraint trouble, ...). -/
inductive Step where
  | beginTx
  | execInsertService
  | execCreateTemp
  | prepareCopy
  | copyExec (i : Nat)
  | copyFlush
  | execInsertLocations
  | execInsertSamples
  | closeCopy
  | commit
deriving DecidableEq

inductive StageFail where
  | copyFailed
  | panicked
deriving DecidableEq

/-- The staging loop (main.go lines 189-207).  For each queued Exec call the
argument evaluation (sample.Value[0], sample.Value[1]) happens first and
panics on a short vector; then the Exec call itself may fail.  Each
successful call appends one row to the transaction's temp table and touches
nothing else. -/
def runStaging (fail : Step → Bool) : List PendingExec → Nat → Tx → Except StageFail Tx
  | [], _, tx => .ok tx
  | pe :: rest, i, tx =>
      match stageRow pe with
      | none => .error .panicked
      | some row =>
          if fail (.copyExec i) then .error .copyFailed
          else runStaging fail rest (i + 1) { tx with tmp := tx.tmp ++ [row] }

inductive Outcome where
  | ok
  | failed (e : IngestError)
  | panicked
deriving DecidableEq

structure RunResult where
  outcome : Outcome
  db : DB
deriving DecidableEq

/-- CreateProfile (main.go lines 155-239) over one decoded profile p: resolve
metadata, open a transaction, insert the service row, create the temp
table, prepare the COPY, run the staging loop, flush the COPY, insert
locations, insert samples, close the COPY statement, commit.  fail selects
which database interactions the environment makes fail; now is the
wall-clock instant of the ingestion - the code never reads a clock, so no
branch uses it.  All writes go through the transaction view, which only
tx.Commit publishes; every other exit (error return or panic) reaches the
deferred tx.Rollback (deferred calls also run while panicking), leaving the
caller-visible database unchanged. -/
def runCreateProfile (timeParse : String → Option Int) (fail : Step → Bool)
    (meta : List (String × String)) (p : PProfile) (filePath : String)
    (db : DB) (now : Int) : RunResult :=
  match createProfile timeParse meta p with
  | .error e => { outcome := .failed (wrapProfileErr filePath e), db := db }
  | .ok prof =>
    if fail .beginTx then { outcome := .failed .externalError, db := db } else
    let tx0 : Tx := { view := db, tmp := [] }
    if fail .execInsertService then
      { outcome := .failed (.wrapped "could not INSERT service" .externalError), db := db } else
    let tx1 : Tx := { tx0 with view := { tx0.view with
      services := insertService prof.BuildID prof.Token prof.Service
        (hstoreFromLabels prof.Labels) tx0.view.services } }
    if fail .execCreateTemp then
      { outcome := .failed (.wrapped "could not create temp table" .externalError), db := db } else
    if fail .prepareCopy then
      { outcome := .failed (.wrapped "could not prepare COPY statement" .externalError),
        db := db } else
    match runStaging fail (pendingExecs p) 0 tx1 with
    | .error .panicked => { outcome := .panicked, db := db }
    | .error .copyFailed =>
        { outcome := .failed (.wrapped "could not exec COPY statement" .externalError), db := db }
    | .ok tx2 =>
      if fail .copyFlush then
        { outcome := .failed (.wrapped "could not exec COPY statement" .externalError),
          db := db } else
      if fail .execInsertLocations then
        { outcome := .failed (.wrapped "could not insert locations" .externalError),
          db := db } else
      let tx3 : Tx := { tx2 with view := { tx2.view with
        locations := insertLocations tx2.tmp tx2.view.locations } }
      if fail .execInsertSamples then
        { outcome := .failed (.wrapped "could not insert samples" .externalError),
          db := db } else
      let tx4 : Tx := { tx3 with view := { tx3.view with
        samples := insertSamples prof.BuildID prof.Token prof.CreatedAt
          tx3.view.locations tx3.tmp tx3.view.samples } }
      if fail .closeCopy then
        { outcome := .failed (.wrapped "could not close COPY statement" .externalError),
          db := db } else
      if fail .commit then
        { outcome := .failed (.wrapped "could not commit transaction" .externalError),
          db := db } else
      { outcome := .ok, db := tx4.view }

/-- The line entries of a sample, flattened over its locations in order. -/
def linesOf (s : Sample) : List Line := s.Location.flatMap Location.Line

/-- Whether a sample produces at least one staged row. -/
def stageableB (s : Sample) : Bool := !(linesOf s).isEmpty

/-- Number of samples that stage at least one temp-table row. -/
def stageableCount (p : PProfile) : Nat := (p.Sample.filter stageableB).length

def tripleOfLine (ln : Line) : String × String × Int := (ln.FuncName, ln.FuncFilename, ln.Line)

/-- A sample's original ordered (function, file, line) sequence. -/
def lineTriples (s : Sample) : List (String × String × Int) := (linesOf s).map tripleOfLine

/-- Resolve a location id back through the dictionary. -/
def resolveTriple (t : LocTable) (id : Nat) : Option (String × String × Int) :=
  (t.rows.find? (fun l => l.location_id == id)).map tripleOfLoc

def triplesOf (t : LocTable) : List (String × String × Int) := t.rows.map tripleOfLoc

/-- Well-formedness of the locations table: triples unique (the UNIQUE
constraint of src/pprof_data.sql line 26), ids unique (PRIMARY KEY) and
below the SERIAL counter. -/
def locInv (t : LocTable) : Prop :=
  (triplesOf t).Nodup ∧ (t.rows.map LocationRow.location_id).Nodup ∧
    ∀ l ∈ t.rows, l.location_id < t.nextId

instance (t : LocTable) : Decidable (locInv t) := by
  unfold locInv
  infer_instance

def defaultLocRow : LocationRow := { location_id := 0, func := "", file_name := "", line := 0 }

def findLoc (t : LocTable) (r : StagedRow) : Option LocationRow :=
  t.rows.find? (fun l => locMatches r l)

def resolveRow (t : LocTable) (r : StagedRow) : LocationRow :=
  (findLoc t r).getD defaultLocRow

/-- The group key each sample would get: its ordinal and first two values. -/
def keyOfSample (i : Nat) (s : Sample) : SKey := (i, s.Value.getD 0 0, s.Value.getD 1 0)

/-- The group keys of the stageable samples, in sample order. -/
def keyList : Nat → List Sample → List SKey
  | _, [] => []
  | i, s :: ss => (if stageableB s then [keyOfSample i s] else []) ++ keyList (i + 1) ss

/-- Fixtures used by witnesses and counterexamples. -/
def exLine1 : Line := { FuncName := "f1", FuncFilename := "file1", Line := 10 }

def exLine2 : Line := { FuncName := "f2", FuncFilename := "file2", Line := 20 }

def exSampleA : Sample := { Location := [{ Line := [exLine1] }], Value := [5, 100] }

def exSampleB : Sample :=
  { Location := [{ Line := [exLine1] }, { Line := [exLine2] }], Value := [3, 60] }

def exProf : PProfile := { Sample := [exSampleA, exSampleB], TimeNanos := 7 }

def exMeta : List (String × String) :=
  [("build_id", "456"), ("token", "fra.1"), ("service", "adjust_server"), ("dc", "fra")]

/-- A snapshot whose one sample has a three-wide value vector. -/
def pWide : PProfile :=
  { Sample := [{ Location := [{ Line := [exLine1] }], Value := [1, 2, 3] }], TimeNanos := 5 }

/-- A snapshot whose one sample has a one-wide value vector and a line. -/
def pShort : PProfile :=
  { Sample := [{ Location := [{ Line := [exLine1] }], Value := [5] }], TimeNanos := 5 }

/-- A snapshot whose one sample has an empty location list. -/
def pEmptyLoc : PProfile :=
  { Sample := [{ Location := [], Value := [5, 100] }], TimeNanos := 7 }

/-- A snapshot without an embedded capture time (TimeNanos = 0). -/
def pZeroTime : PProfile := { Sample := [exSampleA], TimeNanos := 0 }

/-- Two concrete temp-table rows sharing one call site with exProf. -/
def exRow1 : StagedRow :=
  { sample_id := 0, location_id := 0, func := "f1", file_name := "file1", line := 10,
    value_cpu := 5, value_nanos := 100 }

def exRow2 : StagedRow :=
  { sample_id := 1, location_id := 1, func := "f2", file_name := "file2", line := 20,
    value_cpu := 3, value_nanos := 60 }

/-- The first staged row of exProf's second sample. -/
def exRowB : StagedRow :=
  { sample_id := 1, location_id := 0, func := "f1", file_name := "file1", line := 10,
    value_cpu := 3, value_nanos := 60 }

/-- The rows the staging loop produces for exProf. -/
def exStagedRows : List StagedRow :=
  [{ sample_id := 0, location_id := 0, func := "f1", file_name := "file1", line := 10,
     value_cpu := 5, value_nanos := 100 },
   { sample_id := 1, location_id := 0, func := "f1", file_name := "file1", line := 10,
     value_cpu := 3, value_nanos := 60 },
   { sample_id := 1, location_id := 1, func := "f2", file_name := "file2", line := 20,
     value_cpu := 3, value_nanos := 60 }]

def exMetaBadTime : List (String × String) := exMeta ++ [("received_at", "not-a-date")]

def exMetaGoodTime : List (String × String) :=
  exMeta ++ [("received_at", "2024-05-01T10:00:00Z")]

/-- A stand-in for time.Parse on metadata that carries no received_at key:
never consulted there. -/
def tpNone : String → Option Int := fun _ => none

/-- time.Parse modelled on the two concrete strings the witnesses use. -/
def tpTable : String → Option Int :=
  fun s => if s = "2024-05-01T10:00:00Z" then some 1714557600000000000 else none

def noFail : Step → Bool := fun _ => false

lemma stageRow_eq_none_iff (pe : PendingExec) : stageRow pe = none ↔ pe.values.length < 2 := by
  unfold stageRow
  cases pe.values with
  | nil => simp
  | cons v0 vs =>
    cases vs with
    | nil => simp
    | cons v1 rest => simp

lemma stageList_ok : ∀ (l : List PendingExec) (rows : List StagedRow),
    stageList l = some rows →
    rows = l.filterMap stageRow ∧ ∀ pe ∈ l, (stageRow pe).isSome := by
  intro l
  induction l with
  | nil =>
    intro rows h
    simp only [stageList, Option.some.injEq] at h
    subst h
    simp
  | cons pe rest ih =>
    intro rows h
    rw [stageList] at h
    cases hpe : stageRow pe with
    | none => rw [hpe] at h; exact Option.noConfusion h
    | some row =>
      rw [hpe] at h
      cases hrest : stageList rest with
      | none => rw [hrest] at h; exact Option.noConfusion h
      | some rs =>
        rw [hrest] at h
        simp only [Option.some.injEq] at h
        obtain ⟨h1, _h2⟩ := ih rs hrest
        constructor
        · rw [← h, List.filterMap_cons, hpe, h1]
        · intro pe' hmem
          rcases List.mem_cons.mp hmem with hh | ht
          · subst hh; simp [hpe]
          · exact (ih rs hrest).2 pe' ht

lemma stageList_eq_none_iff (l : List PendingExec) :
    stageList l = none ↔ ∃ pe ∈ l, stageRow pe = none := by
  induction l with
  | nil => simp [stageList]
  | cons pe rest ih =>
    cases hpe : stageRow pe with
    | none =>
      simp only [stageList, hpe]
      constructor
      · intro _; exact ⟨pe, List.mem_cons_self _ _, hpe⟩
      · intro _; trivial
    | some row =>
      cases hrest : stageList rest with
      | none =>
        simp only [stageList, hpe, hrest]
        constructor
        · intro _
          obtain ⟨pe', hmem, hnone⟩ := ih.mp hrest
          exact ⟨pe', List.mem_cons_of_mem _ hmem, hnone⟩
        · intro _; trivial
      | some rs =>
        simp only [stageList, hpe, hrest]
        constructor
        · intro h; exact Option.noConfusion h
        · intro ⟨pe', hmem, hnone⟩
          rcases List.mem_cons.mp hmem with hh | ht
          · subst hh; rw [hpe] at hnone; exact Option.noConfusion hnone
          · rw [ih.mpr ⟨pe', ht, hnone⟩] at hrest; exact Option.noConfusion hrest

lemma filterMap_pendingOfLocs (i : Nat) (v : List Int) :
    ∀ (j : Nat) (locs : List Location),
    (pendingOfLocs i v j locs).filterMap stageRow =
      (match v with
        | v0 :: v1 :: _ => stagedOfLocs i v0 v1 j locs
        | _ => []) := by
  intro j locs
  induction locs generalizing j with
  | nil => cases v with
    | nil => simp [pendingOfLocs, stagedOfLocs]
    | cons v0 vs => cases vs with
      | nil => simp [pendingOfLocs]
      | cons v1 rest => simp [pendingOfLocs, stagedOfLocs]
  | cons loc locs ih =>
    cases v with
    | nil => simp [pendingOfLocs, List.filterMap_append, List.filterMap_map, stageRow, ih]
    | cons v0 vs => cases vs with
      | nil => simp [pendingOfLocs, List.filterMap_append, List.filterMap_map, stageRow, ih]
      | cons v1 rest =>
        simp only [pendingOfLocs, stagedOfLocs, List.filterMap_append, List.filterMap_map, ih]
        congr 1
        induction loc.Line with
        | nil => simp
        | cons ln lns ihl => simp [List.filterMap_cons, stageRow, ihl]

lemma filterMap_pendingOfSamples : ∀ (i : Nat) (ss : List Sample),
    (pendingOfSamples i ss).filterMap stageRow = stagedOfSamples i ss := by
  intro i ss
  induction ss generalizing i with
  | nil => simp [pendingOfSamples, stagedOfSamples]
  | cons s ss ih =>
    simp only [pendingOfSamples, stagedOfSamples, List.filterMap_append, ih,
      filterMap_pendingOfLocs]
    rw [blockOf]

/-- The staging loop, when it completes, produces exactly the canonical
flattened rows. -/
lemma stageProfile_ok_eq (p : PProfile) (rows : List StagedRow)
    (h : stageProfile p = some rows) : rows = stagedOfSamples 0 p.Sample := by
  have := (stageList_ok _ _ h).1
  rw [this, pendingExecs, filterMap_pendingOfSamples]

lemma mem_pendingOfLocs_of_line (i : Nat) (v : List Int) :
    ∀ (j : Nat) (locs : List Location) (ln : Line), ln ∈ locs.flatMap Location.Line →
    ∃ pe ∈ pendingOfLocs i v j locs, pe.values = v ∧ pe.line = ln := by
  intro j locs
  induction locs generalizing j with
  | nil => simp
  | cons loc locs ih =>
    intro ln hmem
    rw [List.flatMap_cons, List.mem_append] at hmem
    rcases hmem with hh | ht
    · refine ⟨{ sampleID := i, locID := j, values := v, line := ln }, ?_, rfl, rfl⟩
      rw [pendingOfLocs, List.mem_append]
      exact Or.inl (List.mem_map.mpr ⟨ln, hh, rfl⟩)
    · obtain ⟨pe, hpe, hv, hl⟩ := ih (j + 1) ln ht
      refine ⟨pe, ?_, hv, hl⟩
      rw [pendingOfLocs, List.mem_append]
      exact Or.inr hpe

lemma mem_pendingOfSamples_of_line : ∀ (i : Nat) (ss : List Sample) (s : Sample)
    (_hs : s ∈ ss) (ln : Line) (_hl : ln ∈ linesOf s),
    ∃ pe ∈ pendingOfSamples i ss, pe.values = s.Value ∧ pe.line = ln := by
  intro i ss
  induction ss generalizing i with
  | nil => simp
  | cons s0 ss ih =>
    intro s hs ln hl
    rcases List.mem_cons.mp hs with hh | ht
    · subst hh
      obtain ⟨pe, hpe, hv, hline⟩ := mem_pendingOfLocs_of_line i s.Value 0 s.Location ln hl
      refine ⟨pe, ?_, hv, hline⟩
      rw [pendingOfSamples, List.mem_append]
      exact Or.inl hpe
    · obtain ⟨pe, hpe, hv, hline⟩ := ih (i + 1) s ht ln hl
      refine ⟨pe, ?_, hv, hline⟩
      rw [pendingOfSamples, List.mem_append]
      exact Or.inr hpe

lemma mem_stagedOfLocs_key (i : Nat) (v0 v1 : Int) :
    ∀ (j : Nat) (locs : List Location) (r : StagedRow),
    r ∈ stagedOfLocs i v0 v1 j locs → sampleKey r = (i, v0, v1) := by
  intro j locs
  induction locs generalizing j with
  | nil => simp [stagedOfLocs]
  | cons loc locs ih =>
    intro r hmem
    rw [stagedOfLocs, List.mem_append] at hmem
    rcases hmem with hh | ht
    · obtain ⟨ln, _, hr⟩ := List.mem_map.mp hh
      subst hr
      rfl
    · exact ih (j + 1) r ht

lemma stagedOfLocs_map_triple (i : Nat) (v0 v1 : Int) :
    ∀ (j : Nat) (locs : List Location),
    (stagedOfLocs i v0 v1 j locs).map tripleOfRow
      = (locs.flatMap Location.Line).map tripleOfLine := by
  intro j locs
  induction locs generalizing j with
  | nil => simp [stagedOfLocs]
  | cons loc locs ih =>
    rw [stagedOfLocs, List.flatMap_cons, List.map_append, List.map_append, List.map_map, ih]
    rfl

lemma mem_blockOf_key (i : Nat) (s : Sample) (r : StagedRow) (h : r ∈ blockOf i s) :
    sampleKey r = keyOfSample i s := by
  rw [blockOf] at h
  cases hv : s.Value with
  | nil => rw [hv] at h; simp at h
  | cons v0 vs =>
    cases vs with
    | nil => rw [hv] at h; simp at h
    | cons v1 rest =>
      rw [hv] at h
      rw [mem_stagedOfLocs_key i v0 v1 0 s.Location r h, keyOfSample, hv]
      simp

lemma blockOf_map_triple (i : Nat) (s : Sample) (h : 2 ≤ s.Value.length) :
    (blockOf i s).map tripleOfRow = lineTriples s := by
  rw [blockOf]
  cases hv : s.Value with
  | nil => rw [hv] at h; simp at h
  | cons v0 vs =>
    cases vs with
    | nil => rw [hv] at h; simp at h
    | cons v1 rest =>
      rw [stagedOfLocs_map_triple, lineTriples, linesOf]

lemma blockOf_eq_nil (i : Nat) (s : Sample)
    (h : 2 ≤ s.Value.length ∨ linesOf s = []) (hstg : stageableB s = false) :
    blockOf i s = [] := by
  have hlines : linesOf s = [] := by
    rcases h with h | h
    · rw [stageableB, Bool.not_eq_false'] at hstg
      exact List.isEmpty_iff.mp hstg
    · exact h
  rw [blockOf]
  cases hv : s.Value with
  | nil => rfl
  | cons v0 vs =>
    cases vs with
    | nil => rfl
    | cons v1 rest =>
      have := stagedOfLocs_map_triple i v0 v1 0 s.Location
      rw [← linesOf, hlines] at this
      simpa using this

lemma blockOf_length (i : Nat) (s : Sample) (h : 2 ≤ s.Value.length) :
    (blockOf i s).length = (linesOf s).length := by
  have := congrArg List.length (blockOf_map_triple i s h)
  simpa [lineTriples] using this

lemma mem_stagedOfSamples_id_ge : ∀ (ss : List Sample) (i : Nat) (r : StagedRow),
    r ∈ stagedOfSamples i ss → i ≤ r.sample_id := by
  intro ss
  induction ss with
  | nil => simp [stagedOfSamples]
  | cons s ss ih =>
    intro i r hmem
    rw [stagedOfSamples, List.mem_append] at hmem
    rcases hmem with hh | ht
    · have := mem_blockOf_key i s r hh
      have : r.sample_id = i := congrArg Prod.fst this
      omega
    · have := ih (i + 1) r ht
      omega

lemma keyList_fst_ge : ∀ (ss : List Sample) (i : Nat) (k : SKey),
    k ∈ keyList i ss → i ≤ k.1 := by
  intro ss
  induction ss with
  | nil => simp [keyList]
  | cons s ss ih =>
    intro i k hmem
    rw [keyList, List.mem_append] at hmem
    rcases hmem with hh | ht
    · rcases hstg : stageableB s with _ | _ <;> rw [hstg] at hh
      · simp at hh
      · simp at hh
        subst hh
        exact Nat.le_refl i
    · have := ih (i + 1) k ht
      omega

lemma keyList_length : ∀ (ss : List Sample) (i : Nat),
    (keyList i ss).length = (ss.filter stageableB).length := by
  intro ss
  induction ss with
  | nil => simp [keyList]
  | cons s ss ih =>
    intro i
    rw [keyList, List.filter_cons]
    rcases hstg : stageableB s with _ | _ <;> simp [ih]

lemma dedupAux_replicate_mem {K : Type} [DecidableEq K] :
    ∀ (n : Nat) (k : K) (l seen : List K), k ∈ seen →
    dedupAux (List.replicate n k ++ l) seen = dedupAux l seen := by
  intro n
  induction n with
  | zero => intro k l seen _; rfl
  | succ n ih =>
    intro k l seen hmem
    rw [List.replicate_succ, List.cons_append, dedupAux, if_pos hmem]
    exact ih k l seen hmem

lemma staged_dedup_keys : ∀ (ss : List Sample) (i : Nat) (seen : List SKey),
    (∀ s ∈ ss, 2 ≤ s.Value.length ∨ linesOf s = []) →
    (∀ k ∈ (stagedOfSamples i ss).map sampleKey, k ∉ seen) →
    dedupAux ((stagedOfSamples i ss).map sampleKey) seen = keyList i ss := by
  intro ss
  induction ss with
  | nil => intro i seen _ _; rfl
  | cons s ss ih =>
    intro i seen h hseen
    have hhead := h s (List.mem_cons_self _ _)
    have htail : ∀ s' ∈ ss, 2 ≤ s'.Value.length ∨ linesOf s' = [] :=
      fun s' hs' => h s' (List.mem_cons_of_mem _ hs')
    rcases hstg : stageableB s with _ | _
    · have hnil := blockOf_eq_nil i s hhead hstg
      rw [stagedOfSamples, hnil, List.nil_append] at hseen ⊢
      rw [keyList, hstg, if_neg (by simp), List.nil_append]
      exact ih (i + 1) seen htail hseen
    · have hw : 2 ≤ s.Value.length := by
        rcases hhead with h2 | h2
        · exact h2
        · rw [stageableB, h2] at hstg
          simp at hstg
      have hlen : (blockOf i s).length = (linesOf s).length := blockOf_length i s hw
      have hpos : 0 < (blockOf i s).length := by
        rw [hlen]
        rcases hne : linesOf s with _ | _
        · rw [stageableB, hne] at hstg; simp at hstg
        · simp
      have hrep : (blockOf i s).map sampleKey
          = List.replicate (blockOf i s).length (keyOfSample i s) := by
        rw [← List.length_map (blockOf i s) sampleKey]
        apply List.eq_replicate_of_mem
        intro k hk
        obtain ⟨r, hr, hkr⟩ := List.mem_map.mp hk
        rw [← hkr]
        exact mem_blockOf_key i s r hr
      rw [stagedOfSamples, List.map_append, hrep]
      obtain ⟨n, hn⟩ : ∃ n, (blockOf i s).length = n + 1 :=
        ⟨(blockOf i s).length - 1, by omega⟩
      rw [hn, List.replicate_succ, List.cons_append, dedupAux]
      have hk0 : keyOfSample i s ∉ seen := by
        apply hseen
        rw [stagedOfSamples, List.map_append, hrep, hn, List.replicate_succ]
        simp
      rw [if_neg hk0]
      rw [dedupAux_replicate_mem n (keyOfSample i s) _ _ (List.mem_cons_self _ _)]
      rw [keyList, hstg, if_pos rfl, List.singleton_append]
      congr 1
      apply ih (i + 1)
      · exact htail
      · intro k hk
        obtain ⟨r, hr, hkr⟩ := List.mem_map.mp hk
        have hge := mem_stagedOfSamples_id_ge ss (i + 1) r hr
        intro hmem
        rcases List.mem_cons.mp hmem with hh | hseen'
        · have : k.1 = i := by rw [hh, keyOfSample]
          rw [← hkr, sampleKey] at this
          simp at this
          omega
        · apply hseen k _ hseen'
          rw [stagedOfSamples, List.map_append, List.mem_append]
          exact Or.inr hk

lemma staged_filter_spec : ∀ (ss : List Sample) (i : Nat) (pre : List StagedRow),
    (∀ s ∈ ss, 2 ≤ s.Value.length ∨ linesOf s = []) →
    (∀ r ∈ pre, r.sample_id < i) →
    List.Forall₂ (fun (k : SKey) (s : Sample) =>
        ((pre ++ stagedOfSamples i ss).filter (fun r => sampleKey r = k)).map tripleOfRow
          = lineTriples s)
      (keyList i ss) (ss.filter stageableB) := by
  intro ss
  induction ss with
  | nil => intro i pre _ _; exact List.Forall₂.nil
  | cons s ss ih =>
    intro i pre h hpre
    have hhead := h s (List.mem_cons_self _ _)
    have htail : ∀ s' ∈ ss, 2 ≤ s'.Value.length ∨ linesOf s' = [] :=
      fun s' hs' => h s' (List.mem_cons_of_mem _ hs')
    rcases hstg : stageableB s with _ | _
    · have hnil := blockOf_eq_nil i s hhead hstg
      rw [keyList, hstg, if_neg (by simp), List.nil_append, List.filter_cons, hstg]
      simp only [stagedOfSamples, hnil, List.nil_append]
      exact ih (i + 1) pre htail (fun r hr => Nat.lt_succ_of_lt (hpre r hr))
    · have hw : 2 ≤ s.Value.length := by
        rcases hhead with h2 | h2
        · exact h2
        · rw [stageableB, h2] at hstg
          simp at hstg
      rw [keyList, hstg, if_pos rfl, List.singleton_append, List.filter_cons, hstg]
      simp only [cond_true]
      apply List.Forall₂.cons
      · -- the head group: exactly the rows of this sample's block
        rw [stagedOfSamples, ← List.append_assoc, List.filter_append, List.filter_append]
        have hfpre : pre.filter (fun r => sampleKey r = keyOfSample i s) = [] := by
          rw [List.filter_eq_nil_iff]
          intro r hr
          simp only [decide_eq_true_eq]
          intro hk
          have : r.sample_id = i := congrArg Prod.fst hk
          have := hpre r hr
          omega
        have hfblock : (blockOf i s).filter (fun r => sampleKey r = keyOfSample i s)
            = blockOf i s := by
          rw [List.filter_eq_self]
          intro r hr
          simp only [decide_eq_true_eq]
          exact mem_blockOf_key i s r hr
        have hfrest : (stagedOfSamples (i + 1) ss).filter
            (fun r => sampleKey r = keyOfSample i s) = [] := by
          rw [List.filter_eq_nil_iff]
          intro r hr
          simp only [decide_eq_true_eq]
          intro hk
          have : r.sample_id = i := congrArg Prod.fst hk
          have := mem_stagedOfSamples_id_ge ss (i + 1) r hr
          omega
        rw [hfpre, hfblock, hfrest, List.nil_append, List.append_nil]
        exact blockOf_map_triple i s hw
      · -- the remaining groups, with this block folded into the prefix
        simp only [stagedOfSamples, ← List.append_assoc]
        apply ih (i + 1) (pre ++ blockOf i s) htail
        intro r hr
        rcases List.mem_append.mp hr with hh | hb
        · exact Nat.lt_succ_of_lt (hpre r hh)
        · have : r.sample_id = i := congrArg Prod.fst (mem_blockOf_key i s r hb)
          omega

lemma locMatches_iff (r : StagedRow) (l : LocationRow) :
    locMatches r l = true ↔ tripleOfRow r = tripleOfLoc l := by
  simp [locMatches, tripleOfRow, tripleOfLoc, Prod.ext_iff, and_assoc]

lemma mem_triplesOf_insertLoc1 (t : LocTable) (r : StagedRow)
    (tr : String × String × Int) :
    tr ∈ triplesOf (insertLoc1 t r) ↔ tr ∈ triplesOf t ∨ tr = tripleOfRow r := by
  rw [insertLoc1]
  split
  · next hany =>
    obtain ⟨l, hl, hm⟩ := List.any_eq_true.mp hany
    constructor
    · intro hmem; exact Or.inl hmem
    · intro hmem
      rcases hmem with hmem | hmem
      · exact hmem
      · subst hmem
        rw [(locMatches_iff r l).mp hm]
        exact List.mem_map_of_mem tripleOfLoc hl
  · next _ =>
    rw [triplesOf]
    simp only [List.map_append, List.map_cons, List.map_nil, List.mem_append,
      List.mem_cons, List.not_mem_nil, or_false]
    rw [triplesOf]
    constructor
    · intro hmem
      rcases hmem with hmem | hmem
      · exact Or.inl hmem
      · exact Or.inr (by rw [hmem]; rfl)
    · intro hmem
      rcases hmem with hmem | hmem
      · exact Or.inl hmem
      · exact Or.inr (by rw [hmem]; rfl)

lemma triple_notMem_of_not_any (t : LocTable) (r : StagedRow)
    (h : ¬t.rows.any (fun l => locMatches r l) = true) :
    tripleOfRow r ∉ triplesOf t := by
  intro hmem
  obtain ⟨l, hl, htr⟩ := List.mem_map.mp hmem
  exact h (List.any_eq_true.mpr ⟨l, hl, (locMatches_iff r l).mpr htr.symm⟩)

lemma locInv_insertLoc1 (t : LocTable) (r : StagedRow) (h : locInv t) :
    locInv (insertLoc1 t r) := by
  obtain ⟨h1, h2, h3⟩ := h
  rw [insertLoc1]
  split
  · exact ⟨h1, h2, fun l hl => Nat.lt_succ_of_lt (h3 l hl)⟩
  · next hany =>
    refine ⟨?_, ?_, ?_⟩
    · rw [triplesOf, List.map_append, List.map_cons, List.map_nil]
      rw [List.nodup_append]
      refine ⟨h1, List.nodup_singleton _, ?_⟩
      intro tr htr hmem
      rcases List.mem_singleton.mp hmem with hh
      rw [hh] at htr
      exact triple_notMem_of_not_any t r hany htr
    · rw [List.map_append, List.map_cons, List.map_nil, List.nodup_append]
      refine ⟨h2, List.nodup_singleton _, ?_⟩
      intro id hid hmem
      rcases List.mem_singleton.mp hmem with hh
      obtain ⟨l, hl, hlid⟩ := List.mem_map.mp hid
      have := h3 l hl
      rw [hlid] at this
      rw [hh] at this
      exact Nat.lt_irrefl _ this
    · intro l hl
      rcases List.mem_append.mp hl with hh | hh
      · exact Nat.lt_succ_of_lt (h3 l hh)
      · rcases List.mem_singleton.mp hh with h'
        rw [h']
        exact Nat.lt_succ_self _

lemma insertLoc1_rows_append (t : LocTable) (r : StagedRow) :
    ∃ new, (insertLoc1 t r).rows = t.rows ++ new := by
  rw [insertLoc1]
  split
  · exact ⟨[], by simp⟩
  · exact ⟨_, rfl⟩

lemma mem_triplesOf_insertLocations : ∀ (tmp : List StagedRow) (t : LocTable)
    (tr : String × String × Int),
    tr ∈ triplesOf (insertLocations tmp t) ↔
      tr ∈ triplesOf t ∨ tr ∈ tmp.map tripleOfRow := by
  intro tmp
  induction tmp with
  | nil => intro t tr; simp [insertLocations]
  | cons r tmp ih =>
    intro t tr
    rw [insertLocations, List.foldl_cons]
    rw [show List.foldl insertLoc1 (insertLoc1 t r) tmp = insertLocations tmp (insertLoc1 t r)
      from rfl]
    rw [ih, mem_triplesOf_insertLoc1, List.map_cons, List.mem_cons]
    tauto

lemma locInv_insertLocations : ∀ (tmp : List StagedRow) (t : LocTable),
    locInv t → locInv (insertLocations tmp t) := by
  intro tmp
  induction tmp with
  | nil => intro t h; exact h
  | cons r tmp ih =>
    intro t h
    rw [insertLocations, List.foldl_cons]
    exact ih (insertLoc1 t r) (locInv_insertLoc1 t r h)

lemma insertLocations_rows_append : ∀ (tmp : List StagedRow) (t : LocTable),
    ∃ new, (insertLocations tmp t).rows = t.rows ++ new := by
  intro tmp
  induction tmp with
  | nil => intro t; exact ⟨[], by simp [insertLocations]⟩
  | cons r tmp ih =>
    intro t
    rw [insertLocations, List.foldl_cons]
    obtain ⟨n1, h1⟩ := insertLoc1_rows_append t r
    obtain ⟨n2, h2⟩ := ih (insertLoc1 t r)
    exact ⟨n1 ++ n2, by rw [insertLocations] at h2; rw [h2, h1, List.append_assoc]⟩

lemma triple_mem_insertLocations (tmp : List StagedRow) (t : LocTable)
    (r : StagedRow) (hr : r ∈ tmp) :
    tripleOfRow r ∈ triplesOf (insertLocations tmp t) :=
  (mem_triplesOf_insertLocations tmp t _).mpr
    (Or.inr (List.mem_map_of_mem tripleOfRow hr))

lemma filter_locMatches (rows : List LocationRow)
    (hnd : (rows.map tripleOfLoc).Nodup) (r : StagedRow)
    (hmem : tripleOfRow r ∈ rows.map tripleOfLoc) :
    ∃ l, rows.find? (fun l => locMatches r l) = some l ∧
      rows.filter (fun l => locMatches r l) = [l] ∧
      tripleOfLoc l = tripleOfRow r ∧ l ∈ rows := by
  induction rows with
  | nil => simp at hmem
  | cons l0 rest ih =>
    rcases hm : locMatches r l0 with _ | _
    · have hne : tripleOfRow r ≠ tripleOfLoc l0 := by
        intro h
        rw [(locMatches_iff r l0).mpr h] at hm
        exact Bool.noConfusion hm
      have hmem' : tripleOfRow r ∈ rest.map tripleOfLoc := by
        rw [List.map_cons, List.mem_cons] at hmem
        rcases hmem with hh | ht
        · exact absurd hh hne
        · exact ht
      obtain ⟨l, hfind, hfilter, htr, hl⟩ :=
        ih (by simpa using (List.nodup_cons.mp (by simpa using hnd)).2) hmem'
      refine ⟨l, ?_, ?_, htr, List.mem_cons_of_mem _ hl⟩
      · rw [List.find?_cons, hm]; exact hfind
      · rw [List.filter_cons, hm]; exact hfilter
    · refine ⟨l0, ?_, ?_, ((locMatches_iff r l0).mp hm).symm, List.mem_cons_self _ _⟩
      · rw [List.find?_cons, hm]
      · rw [List.filter_cons, hm]
        have hrest : rest.filter (fun l => locMatches r l) = [] := by
          rw [List.filter_eq_nil_iff]
          intro l' hl' hmatch
          have h1 : tripleOfRow r = tripleOfLoc l0 := (locMatches_iff r l0).mp hm
          have h2 : tripleOfRow r = tripleOfLoc l' := (locMatches_iff r l').mp hmatch
          have hl0 : tripleOfLoc l0 ∉ rest.map tripleOfLoc :=
            (List.nodup_cons.mp (by simpa using hnd)).1
          exact hl0 (h1 ▸ h2 ▸ List.mem_map_of_mem tripleOfLoc hl')
        simp [hrest]

lemma joinRows_eq (loc : LocTable) (tmp : List StagedRow)
    (hnd : (triplesOf loc).Nodup)
    (hall : ∀ r ∈ tmp, tripleOfRow r ∈ triplesOf loc) :
    joinRows loc tmp = tmp.map (fun r => (r, resolveRow loc r)) := by
  induction tmp with
  | nil => rfl
  | cons r tmp ih =>
    obtain ⟨l, hfind, hfilter, _, _⟩ :=
      filter_locMatches loc.rows hnd r (hall r (List.mem_cons_self _ _))
    have hstep : joinRows loc (r :: tmp)
        = (loc.rows.filter (fun l => locMatches r l)).map (fun l => (r, l))
          ++ joinRows loc tmp := by
      rw [joinRows, joinRows, List.flatMap_cons]
    have hres : resolveRow loc r = l := by
      rw [resolveRow, findLoc, hfind, Option.getD_some]
    rw [hstep, hfilter, ih (fun r' hr' => hall r' (List.mem_cons_of_mem _ hr'))]
    simp [hres]

lemma find?_id_eq (rows : List LocationRow)
    (hnd : (rows.map LocationRow.location_id).Nodup)
    (l : LocationRow) (hl : l ∈ rows) :
    rows.find? (fun l' => l'.location_id == l.location_id) = some l := by
  induction rows with
  | nil => simp at hl
  | cons l0 rest ih =>
    rcases List.mem_cons.mp hl with hh | ht
    · subst hh
      rw [List.find?_cons]
      simp
    · have hne : l0.location_id ≠ l.location_id := by
        intro h
        have h0 : l0.location_id ∉ rest.map LocationRow.location_id :=
          (List.nodup_cons.mp (by simpa using hnd)).1
        exact h0 (h ▸ List.mem_map_of_mem LocationRow.location_id ht)
      rw [List.find?_cons]
      have : (l0.location_id == l.location_id) = false := by
        simp [hne]
      rw [this]
      exact ih (by simpa using (List.nodup_cons.mp (by simpa using hnd)).2) ht

lemma resolveTriple_resolveRow (t : LocTable) (hinv : locInv t) (r : StagedRow)
    (hmem : tripleOfRow r ∈ triplesOf t) :
    resolveTriple t ((resolveRow t r).location_id) = some (tripleOfRow r) := by
  obtain ⟨l, hfind, _hfilter, htr, hlmem⟩ := filter_locMatches t.rows hinv.1 r hmem
  rw [resolveRow, findLoc, hfind, Option.getD_some]
  rw [resolveTriple, find?_id_eq t.rows hinv.2.1 l hlmem]
  simp [htr]

lemma runStaging_ok (fail : Step → Bool) : ∀ (pending : List PendingExec) (i : Nat)
    (tx tx' : Tx), runStaging fail pending i tx = .ok tx' →
    ∃ rows, stageList pending = some rows ∧ tx' = { view := tx.view, tmp := tx.tmp ++ rows } := by
  intro pending
  induction pending with
  | nil =>
    intro i tx tx' h
    rw [runStaging] at h
    cases h
    exact ⟨[], rfl, by simp⟩
  | cons pe rest ih =>
    intro i tx tx' h
    rw [runStaging] at h
    cases hpe : stageRow pe with
    | none => rw [hpe] at h; exact Except.noConfusion h
    | some row =>
      rw [hpe] at h
      rcases hf : fail (.copyExec i) with _ | _
      · rw [hf] at h
        simp only [Bool.false_eq_true, if_false] at h
        obtain ⟨rows, hrows, htx⟩ := ih (i + 1) _ tx' h
        refine ⟨row :: rows, ?_, ?_⟩
        · rw [stageList, hpe, hrows]
        · rw [htx]
          simp
      · rw [hf] at h
        simp only [if_true] at h
        exact Except.noConfusion h

lemma runStaging_noFail_of_none : ∀ (pending : List PendingExec) (i : Nat) (tx : Tx),
    stageList pending = none → runStaging noFail pending i tx = .error .panicked := by
  intro pending
  induction pending with
  | nil => intro i tx h; exact Option.noConfusion h
  | cons pe rest ih =>
    intro i tx h
    rw [stageList] at h
    rw [runStaging]
    cases hpe : stageRow pe with
    | none => rfl
    | some row =>
      rw [hpe] at h
      cases hrest : stageList rest with
      | none =>
        simp only [noFail, Bool.false_eq_true, if_false]
        exact ih (i + 1) _ hrest
      | some rs => rw [hrest] at h; exact Option.noConfusion h

lemma runStaging_noFail_of_some : ∀ (pending : List PendingExec) (rows : List StagedRow)
    (i : Nat) (tx : Tx), stageList pending = some rows →
    runStaging noFail pending i tx = .ok { view := tx.view, tmp := tx.tmp ++ rows } := by
  intro pending
  induction pending with
  | nil =>
    intro rows i tx h
    rw [stageList] at h
    cases h
    simp [runStaging]
  | cons pe rest ih =>
    intro rows i tx h
    rw [stageList] at h
    rw [runStaging]
    cases hpe : stageRow pe with
    | none => rw [hpe] at h; exact Option.noConfusion h
    | some row =>
      rw [hpe] at h
      cases hrest : stageList rest with
      | none => rw [hrest] at h; exact Option.noConfusion h
      | some rs =>
        rw [hrest] at h
        cases h
        simp only [noFail, Bool.false_eq_true, if_false]
        rw [ih rs (i + 1) _ hrest]
        simp

lemma mem_pendingOfLocs (i : Nat) (v : List Int) :
    ∀ (j : Nat) (locs : List Location) (pe : PendingExec),
    pe ∈ pendingOfLocs i v j locs →
    pe.values = v ∧ pe.line ∈ locs.flatMap Location.Line := by
  intro j locs
  induction locs generalizing j with
  | nil => simp [pendingOfLocs]
  | cons loc locs ih =>
    intro pe hmem
    rw [pendingOfLocs, List.mem_append] at hmem
    rcases hmem with hh | ht
    · obtain ⟨ln, hln, hpe⟩ := List.mem_map.mp hh
      subst hpe
      exact ⟨rfl, by rw [List.flatMap_cons, List.mem_append]; left; exact hln⟩
    · obtain ⟨h1, h2⟩ := ih (j + 1) pe ht
      exact ⟨h1, by rw [List.flatMap_cons, List.mem_append]; right; exact h2⟩

lemma mem_pendingOfSamples : ∀ (i : Nat) (ss : List Sample) (pe : PendingExec),
    pe ∈ pendingOfSamples i ss → ∃ s ∈ ss, pe.values = s.Value ∧ pe.line ∈ linesOf s := by
  intro i ss
  induction ss generalizing i with
  | nil => simp [pendingOfSamples]
  | cons s0 ss ih =>
    intro pe hmem
    rw [pendingOfSamples, List.mem_append] at hmem
    rcases hmem with hh | ht
    · obtain ⟨h1, h2⟩ := mem_pendingOfLocs i s0.Value 0 s0.Location pe hh
      exact ⟨s0, List.mem_cons_self _ _, h1, h2⟩
    · obtain ⟨s, hs, h1, h2⟩ := ih (i + 1) pe ht
      exact ⟨s, List.mem_cons_of_mem _ hs, h1, h2⟩

lemma stage_ok_widths (p : PProfile) (rows : List StagedRow)
    (h : stageProfile p = some rows) :
    ∀ s ∈ p.Sample, 2 ≤ s.Value.length ∨ linesOf s = [] := by
  intro s hs
  by_cases hlen : 2 ≤ s.Value.length
  · exact Or.inl hlen
  · right
    by_contra hne
    obtain ⟨ln, hln⟩ := List.exists_mem_of_ne_nil (linesOf s) hne
    obtain ⟨pe, hpe, hv, _⟩ := mem_pendingOfSamples_of_line 0 p.Sample s hs ln hln
    have hsome := (stageList_ok _ _ h).2 pe hpe
    have hnone : stageRow pe = none := (stageRow_eq_none_iff pe).mpr (by rw [hv]; omega)
    rw [hnone] at hsome
    exact Bool.noConfusion hsome

lemma applyMetaKV_createdAt (tp : String → Option Int) (pr pr' : Profile) (k v : String)
    (h : applyMetaKV tp pr k v = .ok pr') : pr'.CreatedAt = pr.CreatedAt := by
  rw [applyMetaKV] at h
  repeat' split at h
  all_goals first
    | (cases h; rfl)
    | exact Except.noConfusion h

lemma applyMetaKV_ok_of_ne (tp : String → Option Int) (pr : Profile) (k v : String)
    (hk : k ≠ "received_at") :
    ∃ pr', applyMetaKV tp pr k v = .ok pr' ∧ pr'.ReceivedAt = pr.ReceivedAt := by
  rw [applyMetaKV]
  by_cases h1 : k = "build_id"
  · rw [if_pos h1]; exact ⟨_, rfl, rfl⟩
  · rw [if_neg h1]
    by_cases h2 : k = "token"
    · rw [if_pos h2]; exact ⟨_, rfl, rfl⟩
    · rw [if_neg h2]
      by_cases h3 : k = "service"
      · rw [if_pos h3]; exact ⟨_, rfl, rfl⟩
      · rw [if_neg h3, if_neg hk]
        exact ⟨_, rfl, rfl⟩

lemma foldlM_meta_cons (tp : String → Option Int) (kv : String × String)
    (meta : List (String × String)) (init : Profile) :
    (kv :: meta).foldlM (fun pr kv => applyMetaKV tp pr kv.1 kv.2) init
      = (applyMetaKV tp init kv.1 kv.2).bind
          (fun pr => meta.foldlM (fun pr kv => applyMetaKV tp pr kv.1 kv.2) pr) := by
  rw [List.foldlM_cons]
  cases applyMetaKV tp init kv.1 kv.2 with
  | error e => rfl
  | ok pr => rfl

lemma foldlM_meta_createdAt (tp : String → Option Int) :
    ∀ (meta : List (String × String)) (init prof : Profile),
    meta.foldlM (fun pr kv => applyMetaKV tp pr kv.1 kv.2) init = .ok prof →
    prof.CreatedAt = init.CreatedAt := by
  intro meta
  induction meta with
  | nil =>
    intro init prof h
    rw [List.foldlM_nil] at h
    cases h
    rfl
  | cons kv meta ih =>
    intro init prof h
    rw [foldlM_meta_cons] at h
    cases hk : applyMetaKV tp init kv.1 kv.2 with
    | error e => rw [hk] at h; exact Except.noConfusion h
    | ok pr1 =>
      rw [hk] at h
      rw [ih pr1 prof h]
      exact applyMetaKV_createdAt tp init pr1 kv.1 kv.2 hk

/-- A committed metadata resolution fixes CreatedAt from the snapshot alone:
the capture time when nonzero, else the zero time value. -/
lemma createProfile_createdAt (tp : String → Option Int) (meta : List (String × String))
    (p : PProfile) (prof : Profile) (h : createProfile tp meta p = .ok prof) :
    prof.CreatedAt = if p.TimeNanos ≠ 0 then p.TimeNanos else goZeroTimeNanos := by
  rw [createProfile] at h
  exact foldlM_meta_createdAt tp meta _ prof h

lemma foldlM_meta_received_bad (tp : String → Option Int) :
    ∀ (meta : List (String × String)) (init : Profile) (v : String),
    (meta.map Prod.fst).Nodup → ("received_at", v) ∈ meta → tp v = none →
    meta.foldlM (fun pr kv => applyMetaKV tp pr kv.1 kv.2) init
      = .error (.timeParseError rfc3339Layout v) := by
  intro meta
  induction meta with
  | nil => intro init v _ hmem _; simp at hmem
  | cons kv meta ih =>
    intro init v hnd hmem hbad
    rw [foldlM_meta_cons]
    by_cases hk : kv.1 = "received_at"
    · have hv : kv.2 = v := by
        rcases List.mem_cons.mp hmem with hh | ht
        · rw [← hh]
        · exfalso
          have : "received_at" ∈ meta.map Prod.fst :=
            List.mem_map_of_mem Prod.fst ht
          rw [List.map_cons] at hnd
          exact (List.nodup_cons.mp hnd).1 (hk ▸ this)
      have hstep : applyMetaKV tp init kv.1 kv.2
          = .error (.timeParseError rfc3339Layout v) := by
        rw [applyMetaKV, hk, hv]
        rw [if_neg (by decide), if_neg (by decide), if_neg (by decide), if_pos rfl, hbad]
      rw [hstep]
      rfl
    · obtain ⟨pr1, hstep, _⟩ := applyMetaKV_ok_of_ne tp init kv.1 kv.2 hk
      rw [hstep]
      have hmem' : ("received_at", v) ∈ meta := by
        rcases List.mem_cons.mp hmem with hh | ht
        · exact absurd (congrArg Prod.fst hh.symm) hk
        · exact ht
      have hnd' : (meta.map Prod.fst).Nodup := by
        rw [List.map_cons] at hnd
        exact (List.nodup_cons.mp hnd).2
      exact ih pr1 v hnd' hmem' hbad

lemma foldlM_meta_no_received (tp : String → Option Int) :
    ∀ (meta : List (String × String)) (init : Profile),
    "received_at" ∉ meta.map Prod.fst →
    ∃ prof, meta.foldlM (fun pr kv => applyMetaKV tp pr kv.1 kv.2) init = .ok prof ∧
      prof.ReceivedAt = init.ReceivedAt := by
  intro meta
  induction meta with
  | nil => intro init _; exact ⟨init, rfl, rfl⟩
  | cons kv meta ih =>
    intro init hno
    rw [List.map_cons] at hno
    have hk : kv.1 ≠ "received_at" := by
      intro h
      exact hno (h ▸ List.mem_cons_self _ _)
    obtain ⟨pr1, hstep, hrecv⟩ := applyMetaKV_ok_of_ne tp init kv.1 kv.2 hk
    obtain ⟨prof, hfold, hrecv'⟩ := ih pr1 (fun h => hno (List.mem_cons_of_mem _ h))
    refine ⟨prof, ?_, by rw [hrecv', hrecv]⟩
    rw [foldlM_meta_cons, hstep]
    exact hfold

lemma foldlM_meta_received_good (tp : String → Option Int) :
    ∀ (meta : List (String × String)) (init : Profile) (v : String) (tm : Int),
    (meta.map Prod.fst).Nodup → ("received_at", v) ∈ meta → tp v = some tm →
    ∃ prof, meta.foldlM (fun pr kv => applyMetaKV tp pr kv.1 kv.2) init = .ok prof ∧
      prof.ReceivedAt = tm := by
  intro meta
  induction meta with
  | nil => intro init v tm _ hmem _; simp at hmem
  | cons kv meta ih =>
    intro init v tm hnd hmem hgood
    rw [List.map_cons] at hnd
    by_cases hk : kv.1 = "received_at"
    · have hv : kv.2 = v := by
        rcases List.mem_cons.mp hmem with hh | ht
        · rw [← hh]
        · exfalso
          have : "received_at" ∈ meta.map Prod.fst :=
            List.mem_map_of_mem Prod.fst ht
          exact (List.nodup_cons.mp hnd).1 (hk ▸ this)
      have hstep : applyMetaKV tp init kv.1 kv.2
          = .ok { init with ReceivedAt := tm } := by
        rw [applyMetaKV, hk, hv]
        rw [if_neg (by decide), if_neg (by decide), if_neg (by decide), if_pos rfl, hgood]
      have hno : "received_at" ∉ meta.map Prod.fst := by
        intro h
        exact (List.nodup_cons.mp hnd).1 (hk ▸ h)
      obtain ⟨prof, hfold, hrecv⟩ :=
        foldlM_meta_no_received tp meta { init with ReceivedAt := tm } hno
      refine ⟨prof, ?_, by rw [hrecv]⟩
      rw [foldlM_meta_cons, hstep]
      exact hfold
    · obtain ⟨pr1, hstep, _⟩ := applyMetaKV_ok_of_ne tp init kv.1 kv.2 hk
      have hmem' : ("received_at", v) ∈ meta := by
        rcases List.mem_cons.mp hmem with hh | ht
        · exact absurd (congrArg Prod.fst hh.symm) hk
        · exact ht
      obtain ⟨prof, hfold, hrecv⟩ :=
        ih pr1 v tm (List.nodup_cons.mp hnd).2 hmem' hgood
      refine ⟨prof, ?_, hrecv⟩
      rw [foldlM_meta_cons, hstep]
      exact hfold

/-- Every return path of CreateProfile either commits or leaves the
caller-visible database untouched. -/
lemma run_ok_or_unchanged (timeParse : String → Option Int) (fail : Step → Bool)
    (meta : List (String × String)) (p : PProfile) (filePath : String)
    (db : DB) (now : Int) :
    (runCreateProfile timeParse fail meta p filePath db now).outcome = .ok ∨
    (runCreateProfile timeParse fail meta p filePath db now).db = db := by
  simp only [runCreateProfile]
  repeat' split
  all_goals simp

/-- A committed run determines the final database from the profile's
metadata record and staged rows. -/
lemma run_ok_extract (timeParse : String → Option Int) (fail : Step → Bool)
    (meta : List (String × String)) (p : PProfile) (filePath : String)
    (db : DB) (now : Int) (db' : DB)
    (h : runCreateProfile timeParse fail meta p filePath db now
      = { outcome := .ok, db := db' }) :
    ∃ prof rows, createProfile timeParse meta p = .ok prof ∧
      stageProfile p = some rows ∧
      db' = { services := insertService prof.BuildID prof.Token prof.Service
                (hstoreFromLabels prof.Labels) db.services,
              locations := insertLocations rows db.locations,
              samples := insertSamples prof.BuildID prof.Token prof.CreatedAt
                (insertLocations rows db.locations) rows db.samples } := by
  simp only [runCreateProfile] at h
  split at h
  next e heq => exact absurd (congrArg RunResult.outcome h) (by simp)
  next prof hprof =>
    split at h
    next => exact absurd (congrArg RunResult.outcome h) (by simp)
    next =>
      split at h
      next => exact absurd (congrArg RunResult.outcome h) (by simp)
      next =>
        split at h
        next => exact absurd (congrArg RunResult.outcome h) (by simp)
        next =>
          split at h
          next => exact absurd (congrArg RunResult.outcome h) (by simp)
          next =>
            split at h
            next hst => exact absurd (congrArg RunResult.outcome h) (by simp)
            next hst => exact absurd (congrArg RunResult.outcome h) (by simp)
            next tx2 hst =>
              split at h
              next => exact absurd (congrArg RunResult.outcome h) (by simp)
              next =>
                split at h
                next => exact absurd (congrArg RunResult.outcome h) (by simp)
                next =>
                  split at h
                  next => exact absurd (congrArg RunResult.outcome h) (by simp)
                  next =>
                    split at h
                    next => exact absurd (congrArg RunResult.outcome h) (by simp)
                    next =>
                      split at h
                      next => exact absurd (congrArg RunResult.outcome h) (by simp)
                      next =>
                        obtain ⟨rows, hrows, htx2⟩ := runStaging_ok fail _ 0 _ tx2 hst
                        refine ⟨prof, rows, hprof, hrows, ?_⟩
                        have hdb := congrArg RunResult.db h
                        subst htx2
                        simp only at hdb
                        rw [← hdb]
                        simp

lemma stagedOfSamples_length : ∀ (ss : List Sample) (i : Nat),
    (∀ s ∈ ss, 2 ≤ s.Value.length ∨ linesOf s = []) →
    (stagedOfSamples i ss).length = (ss.map (fun s => (linesOf s).length)).sum := by
  intro ss
  induction ss with
  | nil => intro i _; rfl
  | cons s ss ih =>
    intro i h
    have hhead := h s (List.mem_cons_self _ _)
    rw [stagedOfSamples, List.length_append, List.map_cons, List.sum_cons,
      ih (i + 1) (fun s' hs' => h s' (List.mem_cons_of_mem _ hs'))]
    congr 1
    rcases hhead with h2 | h2
    · exact blockOf_length i s h2
    · rw [h2]
      have : blockOf i s = [] := by
        rw [blockOf]
        cases hv : s.Value with
        | nil => rfl
        | cons v0 vs =>
          cases vs with
          | nil => rfl
          | cons v1 rest =>
            have := stagedOfLocs_map_triple i v0 v1 0 s.Location
            rw [← linesOf, h2] at this
            simpa using this
      rw [this]
      rfl

lemma staged_same_id_key : ∀ (ss : List Sample) (i : Nat) (r1 r2 : StagedRow),
    r1 ∈ stagedOfSamples i ss → r2 ∈ stagedOfSamples i ss →
    r1.sample_id = r2.sample_id → sampleKey r1 = sampleKey r2 := by
  intro ss
  induction ss with
  | nil => intro i r1 r2 h1; simp [stagedOfSamples] at h1
  | cons s ss ih =>
    intro i r1 r2 h1 h2 hid
    rw [stagedOfSamples, List.mem_append] at h1 h2
    rcases h1 with h1 | h1 <;> rcases h2 with h2 | h2
    · rw [mem_blockOf_key i s r1 h1, mem_blockOf_key i s r2 h2]
    · exfalso
      have e1 : r1.sample_id = i := congrArg Prod.fst (mem_blockOf_key i s r1 h1)
      have e2 := mem_stagedOfSamples_id_ge ss (i + 1) r2 h2
      omega
    · exfalso
      have e1 : r2.sample_id = i := congrArg Prod.fst (mem_blockOf_key i s r2 h2)
      have e2 := mem_stagedOfSamples_id_ge ss (i + 1) r1 h1
      omega
    · exact ih (i + 1) r1 r2 h1 h2 hid

lemma foldl_insertService_noop (b t : String) :
    ∀ (ops : List (String × List (String × Option String))) (T : List ServiceRow),
    (∃ r0 ∈ T, r0.build_id = b ∧ r0.token = t) →
    ops.foldl (fun rows nl => insertService b t nl.1 nl.2 rows) T = T := by
  intro ops
  induction ops with
  | nil => intro T _; rfl
  | cons op ops ih =>
    intro T hT
    rw [List.foldl_cons]
    obtain ⟨r0, hr0, hb, ht⟩ := hT
    have hstep : insertService b t op.1 op.2 T = T := by
      rw [insertService, if_pos]
      exact List.any_eq_true.mpr ⟨r0, hr0, by simp [hb, ht]⟩
    rw [hstep]
    exact ih T ⟨r0, hr0, hb, ht⟩

/-! ## Claim theorems -/

/-- C1: for every ingestion of one snapshot, if any step after the
transaction opens fails (service insert, temp-table creation, staging copy,
location insert, sample insert, close, or commit), no rows become visible
in services, profile_pprof_locations or profile_pprof_samples_cpu beyond
what existed before the call: the run returns the caller-visible database
exactly as it was, the whole snapshot's work rolled back as a unit.  The
hypothesis covers every non-committed outcome, so the pre-transaction
failures and the staging panic are included as well. -/
theorem createProfile_rollback_on_failure (timeParse : String → Option Int)
    (fail : Step → Bool) (meta : List (String × String)) (p : PProfile)
    (filePath : String) (db : DB) (now : Int)
    (h : (runCreateProfile timeParse fail meta p filePath db now).outcome ≠ .ok) :
    (runCreateProfile timeParse fail meta p filePath db now).db = db := by
  rcases run_ok_or_unchanged timeParse fail meta p filePath db now with h1 | h1
  · exact absurd h1 h
  · exact h1

theorem createProfile_rollback_on_failure_witness :
    (runCreateProfile tpNone (fun s => s == Step.execInsertSamples) exMeta exProf "cpu.pb"
        emptyDB 0).outcome ≠ .ok ∧
    (runCreateProfile tpNone (fun s => s == Step.execInsertSamples) exMeta exProf "cpu.pb"
        emptyDB 0).db = emptyDB :=
  ⟨by decide, createProfile_rollback_on_failure _ _ _ _ _ _ _ (by decide)⟩

/-- C2, counterexample: the claim says every ingested snapshot inserts one
fact row per sample, explicitly including samples whose location list is
empty.  The snapshot pEmptyLoc has exactly one sample, with an empty
location list and value pair (5, 100); its ingestion commits successfully
yet inserts zero fact rows: such a sample stages no temp-table rows, so the
GROUP BY of sqlInsertSamples produces no group for it. -/
theorem factRows_missing_for_empty_location_sample :
    (runCreateProfile tpNone noFail exMeta pEmptyLoc "cpu.pb" emptyDB 0).outcome = .ok
    ∧ (runCreateProfile tpNone noFail exMeta pEmptyLoc "cpu.pb" emptyDB 0).db.samples.length
        = 0
    ∧ pEmptyLoc.Sample.length = 1 := by
  decide

/-- C2, amended: for every committed ingestion, the number of fact rows
inserted into profile_pprof_samples_cpu equals the number of samples of the
snapshot that stage at least one tuple, i.e. samples owning at least one
line entry across their locations (one fact row per such sample, not one
per staged tuple); samples with an empty location list - or whose locations
all carry empty line lists - produce no fact row. -/
theorem factRows_eq_stageable_samples (timeParse : String → Option Int)
    (fail : Step → Bool) (meta : List (String × String)) (p : PProfile)
    (filePath : String) (db : DB) (now : Int) (db' : DB)
    (hinv : locInv db.locations)
    (h : runCreateProfile timeParse fail meta p filePath db now
      = { outcome := .ok, db := db' }) :
    db'.samples.length = db.samples.length + stageableCount p := by
  obtain ⟨prof, rows, _hprof, hrows, hdb⟩ :=
    run_ok_extract timeParse fail meta p filePath db now db' h
  subst hdb
  have hcanon := stageProfile_ok_eq p rows hrows
  have hw := stage_ok_widths p rows hrows
  have hinv' := locInv_insertLocations rows db.locations hinv
  have hall : ∀ r ∈ rows, tripleOfRow r ∈ triplesOf (insertLocations rows db.locations) :=
    fun r hr => triple_mem_insertLocations rows db.locations r hr
  simp only [insertSamples]
  rw [List.length_append, List.length_map]
  congr 1
  rw [joinRows_eq _ _ hinv'.1 hall, List.map_map]
  have hkey : (fun rl : StagedRow × LocationRow => sampleKey rl.1)
      ∘ (fun r => (r, resolveRow (insertLocations rows db.locations) r)) = sampleKey := rfl
  rw [hkey, dedupFirst, hcanon]
  rw [staged_dedup_keys p.Sample 0 [] hw (fun k _ hk => List.not_mem_nil k hk)]
  rw [keyList_length]
  rfl

theorem factRows_eq_stageable_samples_witness :
    locInv emptyDB.locations ∧
    (runCreateProfile tpNone noFail exMeta exProf "cpu.pb" emptyDB 0).db.samples.length
      = emptyDB.samples.length + stageableCount exProf :=
  ⟨by decide,
    factRows_eq_stageable_samples tpNone noFail exMeta exProf "cpu.pb" emptyDB 0 _
      (by decide) (by decide)⟩

/-- C3: for every committed ingestion, the inserted fact rows correspond
one-to-one, in order, to the snapshot's staged samples, and each fact row's
sequence of location identifiers, resolved back through
profile_pprof_locations, reproduces that sample's original ordered
(function, file, line) sequence in staging order. -/
theorem factRow_locations_resolve_to_original (timeParse : String → Option Int)
    (fail : Step → Bool) (meta : List (String × String)) (p : PProfile)
    (filePath : String) (db : DB) (now : Int) (db' : DB)
    (hinv : locInv db.locations)
    (h : runCreateProfile timeParse fail meta p filePath db now
      = { outcome := .ok, db := db' }) :
    List.Forall₂ (fun (fr : SampleRow) (s : Sample) =>
        fr.locations.map (resolveTriple db'.locations) = (lineTriples s).map some)
      (db'.samples.drop db.samples.length) (p.Sample.filter stageableB) := by
  obtain ⟨prof, rows, _hprof, hrows, hdb⟩ :=
    run_ok_extract timeParse fail meta p filePath db now db' h
  subst hdb
  have hcanon := stageProfile_ok_eq p rows hrows
  have hw := stage_ok_widths p rows hrows
  have hinv' := locInv_insertLocations rows db.locations hinv
  have hall : ∀ r ∈ rows, tripleOfRow r ∈ triplesOf (insertLocations rows db.locations) :=
    fun r hr => triple_mem_insertLocations rows db.locations r hr
  dsimp only
  simp only [insertSamples]
  rw [List.drop_left]
  rw [joinRows_eq _ _ hinv'.1 hall, List.map_map]
  have hkeyf : (fun rl : StagedRow × LocationRow => sampleKey rl.1)
      ∘ (fun r => (r, resolveRow (insertLocations rows db.locations) r)) = sampleKey := rfl
  rw [hkeyf]
  have hkeys : dedupFirst (rows.map sampleKey) = keyList 0 p.Sample := by
    rw [dedupFirst, hcanon]
    exact staged_dedup_keys p.Sample 0 [] hw (fun k _ hk => List.not_mem_nil k hk)
  rw [hkeys, List.forall₂_map_left_iff]
  have hspec := staged_filter_spec p.Sample 0 [] hw (fun r hr => absurd hr (List.not_mem_nil r))
  simp only [List.nil_append] at hspec
  rw [← hcanon] at hspec
  refine List.Forall₂.imp ?_ hspec
  intro k s hE
  dsimp only
  have h1 : (rows.map (fun r => (r, resolveRow (insertLocations rows db.locations) r))).filter
        (fun rl => sampleKey rl.1 = k)
      = (rows.filter (fun r => sampleKey r = k)).map
          (fun r => (r, resolveRow (insertLocations rows db.locations) r)) := by
    rw [List.filter_map]
    rfl
  rw [h1, List.map_map, List.map_map]
  show (rows.filter (fun r => sampleKey r = k)).map
      (fun r => resolveTriple (insertLocations rows db.locations)
        ((resolveRow (insertLocations rows db.locations) r).location_id))
    = (lineTriples s).map some
  rw [List.map_congr_left (fun r hr =>
    resolveTriple_resolveRow (insertLocations rows db.locations) hinv' r
      (hall r (List.mem_of_mem_filter hr)))]
  rw [← hE, List.map_map]
  rfl

theorem factRow_locations_resolve_to_original_witness :
    locInv emptyDB.locations ∧
    List.Forall₂ (fun (fr : SampleRow) (s : Sample) =>
        fr.locations.map
            (resolveTriple (runCreateProfile tpNone noFail exMeta exProf "cpu.pb"
              emptyDB 0).db.locations)
          = (lineTriples s).map some)
      ((runCreateProfile tpNone noFail exMeta exProf "cpu.pb" emptyDB 0).db.samples.drop
        emptyDB.samples.length)
      (exProf.Sample.filter stageableB) :=
  ⟨by decide,
    factRow_locations_resolve_to_original tpNone noFail exMeta exProf "cpu.pb" emptyDB 0 _
      (by decide) (by decide)⟩

/-- C4: the location dictionary invariant holds across every sequence of
ingestions: starting from a well-formed table, folding any sequence of
staged-row batches through sqlInsertLocations keeps every distinct
(function, file, line) triple unique (created at most once globally), the
resulting set of triples is exactly the initial ones united with every
triple staged so far (an ingestion inserts exactly the staged triples not
already present), and pre-existing rows are left untouched (the table only
grows at the end; the insert is a total function, a no-op on conflict,
never an error). -/
theorem location_dictionary_invariant (tss : List (List StagedRow)) (t0 : LocTable)
    (h : locInv t0) :
    locInv (tss.foldl (fun t ts => insertLocations ts t) t0)
    ∧ (∀ tr, tr ∈ triplesOf (tss.foldl (fun t ts => insertLocations ts t) t0) ↔
        tr ∈ triplesOf t0 ∨ ∃ ts ∈ tss, tr ∈ ts.map tripleOfRow)
    ∧ ∃ new, (tss.foldl (fun t ts => insertLocations ts t) t0).rows = t0.rows ++ new := by
  induction tss generalizing t0 with
  | nil => exact ⟨h, by simp, ⟨[], by simp⟩⟩
  | cons ts tss ih =>
    rw [List.foldl_cons]
    obtain ⟨hInv, hMem, hRows⟩ := ih (insertLocations ts t0) (locInv_insertLocations ts t0 h)
    refine ⟨hInv, ?_, ?_⟩
    · intro tr
      rw [hMem tr, mem_triplesOf_insertLocations]
      constructor
      · rintro ((h1 | h1) | ⟨ts', hts', h1⟩)
        · exact Or.inl h1
        · exact Or.inr ⟨ts, List.mem_cons_self _ _, h1⟩
        · exact Or.inr ⟨ts', List.mem_cons_of_mem _ hts', h1⟩
      · rintro (h1 | ⟨ts', hts', h1⟩)
        · exact Or.inl (Or.inl h1)
        · rcases List.mem_cons.mp hts' with hh | ht
          · subst hh; exact Or.inl (Or.inr h1)
          · exact Or.inr ⟨ts', ht, h1⟩
    · obtain ⟨n2, hn2⟩ := hRows
      obtain ⟨n1, hn1⟩ := insertLocations_rows_append ts t0
      exact ⟨n1 ++ n2, by rw [hn2, hn1, List.append_assoc]⟩

theorem location_dictionary_invariant_witness :
    locInv ([[exRow1], [exRow1, exRow2]].foldl (fun t ts => insertLocations ts t)
      emptyDB.locations)
    ∧ (∀ tr, tr ∈ triplesOf ([[exRow1], [exRow1, exRow2]].foldl
          (fun t ts => insertLocations ts t) emptyDB.locations) ↔
        tr ∈ triplesOf emptyDB.locations
          ∨ ∃ ts ∈ [[exRow1], [exRow1, exRow2]], tr ∈ ts.map tripleOfRow)
    ∧ ∃ new, ([[exRow1], [exRow1, exRow2]].foldl (fun t ts => insertLocations ts t)
        emptyDB.locations).rows = emptyDB.locations.rows ++ new :=
  location_dictionary_invariant [[exRow1], [exRow1, exRow2]] emptyDB.locations (by decide)

/-- C5: service registration is idempotent and first-writer-wins: for every
nonempty sequence of registrations sharing one (build_id, token) identity
against a table that does not yet know the identity, the final table is the
initial one plus exactly one row carrying the first registration's name and
labels - later registrations with different name or labels are no-ops
(insertService is total: a conflict is never an error), and exactly one row
with that identity exists afterwards. -/
theorem service_registration_first_writer_wins :
    (∀ (b t : String) (op : String × List (String × Option String))
        (ops : List (String × List (String × Option String)))
        (rows0 : List ServiceRow),
      (∀ r ∈ rows0, ¬(r.build_id = b ∧ r.token = t)) →
      (op :: ops).foldl (fun rows nl => insertService b t nl.1 nl.2 rows) rows0
          = rows0 ++ [{ build_id := b, token := t, name := op.1, labels := op.2 }]
        ∧ (((op :: ops).foldl (fun rows nl => insertService b t nl.1 nl.2 rows)
              rows0).filter (fun r => r.build_id == b && r.token == t)).length = 1)
    ∧ (∀ (timeParse : String → Option Int) (fail : Step → Bool)
        (meta : List (String × String)) (p : PProfile) (filePath : String)
        (db : DB) (now : Int) (db' : DB),
      runCreateProfile timeParse fail meta p filePath db now
          = { outcome := .ok, db := db' } →
      ∃ prof, createProfile timeParse meta p = .ok prof ∧
        db'.services = insertService prof.BuildID prof.Token prof.Service
          (hstoreFromLabels prof.Labels) db.services) := by
  constructor
  · intro b t op ops rows0 h
    have hany : rows0.any (fun r => r.build_id == b && r.token == t) = false := by
      rw [List.any_eq_false]
      intro r hr
      simp only [Bool.and_eq_true, beq_iff_eq]
      exact h r hr
    have hstep : insertService b t op.1 op.2 rows0
        = rows0 ++ [{ build_id := b, token := t, name := op.1, labels := op.2 }] := by
      rw [insertService, if_neg (by rw [hany]; exact Bool.noConfusion)]
    have hfold : (op :: ops).foldl (fun rows nl => insertService b t nl.1 nl.2 rows) rows0
        = rows0 ++ [{ build_id := b, token := t, name := op.1, labels := op.2 }] := by
      rw [List.foldl_cons, hstep]
      exact foldl_insertService_noop b t ops _
        ⟨{ build_id := b, token := t, name := op.1, labels := op.2 },
          List.mem_append_right _ (List.mem_singleton.mpr rfl), rfl, rfl⟩
    refine ⟨hfold, ?_⟩
    rw [hfold, List.filter_append]
    have h0 : rows0.filter (fun r => r.build_id == b && r.token == t) = [] := by
      rw [List.filter_eq_nil_iff]
      intro r hr
      simp only [Bool.and_eq_true, beq_iff_eq]
      exact h r hr
    rw [h0, List.nil_append]
    simp
  · intro timeParse fail meta p filePath db now db' h
    obtain ⟨prof, rows, hprof, _hrows, hdb⟩ :=
      run_ok_extract timeParse fail meta p filePath db now db' h
    exact ⟨prof, hprof, by rw [hdb]⟩

theorem service_registration_first_writer_wins_witness :
    ([("adjust_server", [("dc", some "fra")]), ("other_name", [])].foldl
        (fun rows nl => insertService "456" "fra.1" nl.1 nl.2 rows) []
      = [] ++ [{ build_id := "456", token := "fra.1", name := "adjust_server",
                 labels := [("dc", some "fra")] }]
    ∧ (([("adjust_server", [("dc", some "fra")]), ("other_name", [])].foldl
          (fun rows nl => insertService "456" "fra.1" nl.1 nl.2 rows) []).filter
        (fun r => r.build_id == "456" && r.token == "fra.1")).length = 1)
    ∧ ∃ prof, createProfile tpNone exMeta exProf = .ok prof ∧
        (runCreateProfile tpNone noFail exMeta exProf "cpu.pb" emptyDB 0).db.services
          = insertService prof.BuildID prof.Token prof.Service
              (hstoreFromLabels prof.Labels) emptyDB.services :=
  ⟨service_registration_first_writer_wins.1 "456" "fra.1"
      ("adjust_server", [("dc", some "fra")]) [("other_name", [])] [] (by decide),
    service_registration_first_writer_wins.2 tpNone noFail exMeta exProf "cpu.pb"
      emptyDB 0 _ (by decide)⟩

/-- C6, counterexample: for a snapshot without an embedded capture time
(TimeNanos = 0), the fact row's created_at is the zero time.Time value
(0001-01-01T00:00:00Z), not the ingestion time: the code never reads a
clock, and createProfile leaves CreatedAt at its zero value.  Here the
ingestion happens at wall-clock instant 12345 yet the committed row carries
goZeroTimeNanos. -/
theorem createdAt_not_ingestion_time :
    (runCreateProfile tpNone noFail exMeta pZeroTime "cpu.pb" emptyDB 12345).outcome = .ok
    ∧ (runCreateProfile tpNone noFail exMeta pZeroTime "cpu.pb" emptyDB
        12345).db.samples.map SampleRow.created_at = [goZeroTimeNanos]
    ∧ goZeroTimeNanos ≠ 12345 := by
  decide

/-- C6, amended: for every committed ingestion, each inserted fact row's
created_at equals the snapshot's embedded capture time when that capture
time is present (nonzero), and otherwise equals the zero time.Time value -
not the ingestion time, which the code never consults. -/
theorem createdAt_capture_or_zero (timeParse : String → Option Int)
    (fail : Step → Bool) (meta : List (String × String)) (p : PProfile)
    (filePath : String) (db : DB) (now : Int) (db' : DB)
    (h : runCreateProfile timeParse fail meta p filePath db now
      = { outcome := .ok, db := db' }) :
    ∀ fr ∈ db'.samples.drop db.samples.length,
      fr.created_at = if p.TimeNanos ≠ 0 then p.TimeNanos else goZeroTimeNanos := by
  obtain ⟨prof, rows, hprof, _hrows, hdb⟩ :=
    run_ok_extract timeParse fail meta p filePath db now db' h
  subst hdb
  dsimp only
  intro fr hfr
  simp only [insertSamples] at hfr
  rw [List.drop_left] at hfr
  obtain ⟨k, _, hk⟩ := List.mem_map.mp hfr
  rw [← hk]
  show prof.CreatedAt = _
  exact createProfile_createdAt timeParse meta p prof hprof

theorem createdAt_capture_or_zero_witness :
    ({ build_id := "456", token := "fra.1", locations := [1],
       created_at := goZeroTimeNanos, value_cpu := 5, value_nanos := 100 } : SampleRow)
      ∈ (runCreateProfile tpNone noFail exMeta pZeroTime "cpu.pb" emptyDB
          12345).db.samples.drop emptyDB.samples.length
    ∧ ({ build_id := "456", token := "fra.1", locations := [1],
         created_at := goZeroTimeNanos, value_cpu := 5, value_nanos := 100 }
          : SampleRow).created_at
        = if pZeroTime.TimeNanos ≠ 0 then pZeroTime.TimeNanos else goZeroTimeNanos :=
  ⟨by decide,
    createdAt_capture_or_zero tpNone noFail exMeta pZeroTime "cpu.pb" emptyDB 12345
      (runCreateProfile tpNone noFail exMeta pZeroTime "cpu.pb" emptyDB 12345).db
      (by decide) _ (by decide)⟩

/-- C7, counterexample: the error surfaced when received_at does not parse
never names the offending key.  With metadata carrying received_at =
"not-a-date", the run fails before the transaction opens with the wrapped
time.Parse error; the messages along the chain mention the file path and
the parse failure (layout and value) but the string "received_at" appears
nowhere, so the claim's "error naming the offending key" is false. -/
theorem received_at_error_not_naming_key :
    (runCreateProfile tpNone noFail exMetaBadTime exProf "cpu.pb" emptyDB 0).outcome
      = .failed (.wrapped ("could not parse profile " ++ goQuote "cpu.pb")
          (.timeParse rfc3339Layout "not-a-date"))
    ∧ errMentions (.wrapped ("could not parse profile " ++ goQuote "cpu.pb")
          (.timeParse rfc3339Layout "not-a-date")) "received_at" = false := by
  decide

/-- C7, amended: for every metadata mapping whose received_at value does not
parse, the ingestion fails before the transaction opens - for every failure
oracle, including one that would fail the transaction steps, the run
returns the wrapped time.Parse error (naming the layout, the offending
value and the profile's file path, but not the metadata key) and the
database entirely unchanged with zero rows written; and for every
received_at value that does parse, metadata resolution succeeds and stores
the parsed timestamp in the ingestion record's ReceivedAt. -/
theorem received_at_parse_behavior :
    (∀ (tp : String → Option Int) (fail : Step → Bool) (meta : List (String × String))
        (p : PProfile) (filePath : String) (db : DB) (now : Int) (v : String),
      (meta.map Prod.fst).Nodup → ("received_at", v) ∈ meta → tp v = none →
      runCreateProfile tp fail meta p filePath db now
        = { outcome := .failed (.wrapped ("could not parse profile " ++ goQuote filePath)
              (.timeParse rfc3339Layout v)),
            db := db })
    ∧ (∀ (tp : String → Option Int) (meta : List (String × String)) (p : PProfile)
        (v : String) (tm : Int),
      (meta.map Prod.fst).Nodup → ("received_at", v) ∈ meta → tp v = some tm →
      ∃ prof, createProfile tp meta p = .ok prof ∧ prof.ReceivedAt = tm) := by
  constructor
  · intro tp fail meta p filePath db now v hnd hmem hbad
    have hcp : createProfile tp meta p = .error (.timeParseError rfc3339Layout v) := by
      rw [createProfile]
      exact foldlM_meta_received_bad tp meta _ v hnd hmem hbad
    simp only [runCreateProfile, hcp]
    rfl
  · intro tp meta p v tm hnd hmem hgood
    rw [createProfile]
    exact foldlM_meta_received_good tp meta _ v tm hnd hmem hgood

theorem received_at_parse_behavior_witness :
    runCreateProfile tpTable noFail exMetaBadTime exProf "cpu.pb" emptyDB 0
      = { outcome := .failed (.wrapped ("could not parse profile " ++ goQuote "cpu.pb")
            (.timeParse rfc3339Layout "not-a-date")),
          db := emptyDB }
    ∧ ∃ prof, createProfile tpTable exMetaGoodTime exProf = .ok prof
        ∧ prof.ReceivedAt = 1714557600000000000 :=
  ⟨received_at_parse_behavior.1 tpTable noFail exMetaBadTime exProf "cpu.pb" emptyDB 0
      "not-a-date" (by decide) (by decide) (by decide),
    received_at_parse_behavior.2 tpTable exMetaGoodTime exProf "2024-05-01T10:00:00Z"
      1714557600000000000 (by decide) (by decide) (by decide)⟩

/-- C8, counterexample: the claim says a sample whose value vector does not
have width exactly two makes the ingestion fail with a fatal
UnsupportedSampleShape error.  The snapshot pWide has exactly one sample,
of width three, and its ingestion commits with no error at all: the code
silently uses Value[0] and Value[1] and ignores the rest, and no
UnsupportedSampleShape error exists anywhere in it. -/
theorem wide_sample_accepted :
    (runCreateProfile tpNone noFail exMeta pWide "cpu.pb" emptyDB 0).outcome = .ok
    ∧ pWide.Sample.map (fun s => s.Value.length) = [3] := by
  decide

/-- C8, amended: the staging loop reads sample.Value[0] and sample.Value[1]
unconditionally.  A sample with fewer than two values and at least one
(location, line) entry makes the ingestion abort with an index-out-of-range
panic (the deferred rollback still runs, so no rows are committed); a
snapshot all of whose samples have width at least two is ingested without
any error, samples wider than two included; and staging panics exactly when
some sample has width below two together with at least one line.  There is
no UnsupportedSampleShape error. -/
theorem sample_width_behavior :
    (∀ (tp : String → Option Int) (meta : List (String × String)) (p : PProfile)
        (filePath : String) (db : DB) (now : Int) (prof : Profile),
      createProfile tp meta p = .ok prof → stageProfile p = none →
      runCreateProfile tp noFail meta p filePath db now = { outcome := .panicked, db := db })
    ∧ (∀ (tp : String → Option Int) (meta : List (String × String)) (p : PProfile)
        (filePath : String) (db : DB) (now : Int) (prof : Profile),
      createProfile tp meta p = .ok prof →
      (∀ s ∈ p.Sample, 2 ≤ s.Value.length) →
      (runCreateProfile tp noFail meta p filePath db now).outcome = .ok)
    ∧ (∀ p : PProfile, stageProfile p = none ↔
        ∃ s ∈ p.Sample, s.Value.length < 2 ∧ linesOf s ≠ []) := by
  refine ⟨?_, ?_, ?_⟩
  · intro tp meta p filePath db now prof hprof hnone
    have hnone' : stageList (pendingExecs p) = none := hnone
    simp only [runCreateProfile, hprof, noFail, Bool.false_eq_true, if_false]
    rw [runStaging_noFail_of_none (pendingExecs p) 0 _ hnone']
  · intro tp meta p filePath db now prof hprof hw
    cases hst : stageProfile p with
    | none =>
      exfalso
      obtain ⟨pe, hpe, hnone⟩ := (stageList_eq_none_iff _).mp hst
      obtain ⟨s, hs, hv, _⟩ := mem_pendingOfSamples 0 p.Sample pe hpe
      have h2 := (stageRow_eq_none_iff pe).mp hnone
      rw [hv] at h2
      have h3 := hw s hs
      omega
    | some rows =>
      have hst' : stageList (pendingExecs p) = some rows := hst
      simp only [runCreateProfile, hprof, noFail, Bool.false_eq_true, if_false]
      rw [runStaging_noFail_of_some (pendingExecs p) rows 0 _ hst']
  · intro p
    rw [stageProfile, stageList_eq_none_iff]
    constructor
    · rintro ⟨pe, hpe, hnone⟩
      obtain ⟨s, hs, hv, hline⟩ := mem_pendingOfSamples 0 p.Sample pe hpe
      refine ⟨s, hs, ?_, List.ne_nil_of_mem hline⟩
      have := (stageRow_eq_none_iff pe).mp hnone
      rw [hv] at this
      exact this
    · rintro ⟨s, hs, hshort, hne⟩
      obtain ⟨ln, hln⟩ := List.exists_mem_of_ne_nil (linesOf s) hne
      obtain ⟨pe, hpe, hv, _⟩ := mem_pendingOfSamples_of_line 0 p.Sample s hs ln hln
      exact ⟨pe, hpe, (stageRow_eq_none_iff pe).mpr (by rw [hv]; exact hshort)⟩

theorem sample_width_behavior_witness :
    runCreateProfile tpNone noFail exMeta pShort "cpu.pb" emptyDB 0
        = { outcome := .panicked, db := emptyDB }
    ∧ (runCreateProfile tpNone noFail exMeta pWide "cpu.pb" emptyDB 0).outcome = .ok
    ∧ (stageProfile pShort = none ↔
        ∃ s ∈ pShort.Sample, s.Value.length < 2 ∧ linesOf s ≠ []) :=
  ⟨sample_width_behavior.1 tpNone exMeta pShort "cpu.pb" emptyDB 0
      { BuildID := "456", Token := "fra.1", Service := "adjust_server", CreatedAt := 5,
        ReceivedAt := goZeroTimeNanos, Labels := [("dc", "fra")] }
      (by decide) (by decide),
    sample_width_behavior.2.1 tpNone exMeta pWide "cpu.pb" emptyDB 0
      { BuildID := "456", Token := "fra.1", Service := "adjust_server", CreatedAt := 5,
        ReceivedAt := goZeroTimeNanos, Labels := [("dc", "fra")] }
      (by decide) (by decide),
    sample_width_behavior.2.2 pShort⟩

/-- C9: for every decoded snapshot whose staging completes, the staged rows
are exactly stagedOfSamples 0 p.Sample: one temp-table row per (sample,
location, line-within-location) combination of the graph, carrying the
sample ordinal, the location ordinal within the sample, the line's function
name, file name and line number, and the sample's value pair, in the
snapshot's original sample and location order; the number of rows is the
total line count.  Moreover the staging phase writes to the
transaction-scoped temp table only: any completed run of the loop leaves
the transaction's view of every table untouched and appends exactly these
rows to tmp. -/
theorem staging_one_tuple_per_line (p : PProfile) (rows : List StagedRow)
    (h : stageProfile p = some rows) :
    rows = stagedOfSamples 0 p.Sample
    ∧ rows.length = (p.Sample.map (fun s => (linesOf s).length)).sum
    ∧ ∀ (fail : Step → Bool) (i : Nat) (tx tx' : Tx),
        runStaging fail (pendingExecs p) i tx = .ok tx' →
        tx'.view = tx.view ∧ tx'.tmp = tx.tmp ++ rows := by
  have hcanon := stageProfile_ok_eq p rows h
  refine ⟨hcanon, ?_, ?_⟩
  · rw [hcanon]
    exact stagedOfSamples_length p.Sample 0 (stage_ok_widths p rows h)
  · intro fail i tx tx' hrun
    obtain ⟨rows', hrows', htx⟩ := runStaging_ok fail (pendingExecs p) i tx tx' hrun
    have : rows' = rows := by
      have h' : stageList (pendingExecs p) = some rows := h
      rw [h'] at hrows'
      exact (Option.some.inj hrows').symm
    subst this
    rw [htx]
    exact ⟨rfl, rfl⟩

theorem staging_one_tuple_per_line_witness :
    stageProfile exProf = some exStagedRows
    ∧ (exStagedRows = stagedOfSamples 0 exProf.Sample
      ∧ exStagedRows.length = (exProf.Sample.map (fun s => (linesOf s).length)).sum
      ∧ ∀ (fail : Step → Bool) (i : Nat) (tx tx' : Tx),
          runStaging fail (pendingExecs exProf) i tx = .ok tx' →
          tx'.view = tx.view ∧ tx'.tmp = tx.tmp ++ exStagedRows) :=
  ⟨by decide, staging_one_tuple_per_line exProf exStagedRows (by decide)⟩

/-- C10: for every snapshot whose staging completes, all staged tuples
generated from the same sample carry the identical value pair (Value[0] and
Value[1] are replicated onto every tuple of the sample), so the GROUP BY
key (sample_id, value_cpu, value_nanos) of sqlInsertSamples induces exactly
the same partition of the staged tuples as sample_id alone: two staged
rows agree on the full key precisely when they agree on sample_id. -/
theorem staged_value_pair_constant_per_sample (p : PProfile) (rows : List StagedRow)
    (h : stageProfile p = some rows) :
    ∀ r1 ∈ rows, ∀ r2 ∈ rows,
      (sampleKey r1 = sampleKey r2 ↔ r1.sample_id = r2.sample_id) := by
  have hcanon := stageProfile_ok_eq p rows h
  subst hcanon
  intro r1 h1 r2 h2
  constructor
  · intro hk
    exact congrArg Prod.fst hk
  · intro hid
    exact staged_same_id_key p.Sample 0 r1 r2 h1 h2 hid

theorem staged_value_pair_constant_per_sample_witness :
    sampleKey exRowB = sampleKey exRow2 ↔ exRowB.sample_id = exRow2.sample_id :=
  staged_value_pair_constant_per_sample exProf exStagedRows (by decide) exRowB (by decide)
    exRow2 (by decide)

end TestPprof
